import Mathlib

/-!
Verification of the yavoc vocabulary manager.

The development shallowly embeds the two Python variants of the component:

* `CountVocabulary` (src/yavoc/count.py, on top of src/yavoc/base.py), and
* the standalone `Vocabulary` (src/yavoc/vocabulary.py).

Python dicts are modelled as insertion-ordered association lists
(`List (String × Nat)`), Python `collections.Counter` likewise, and every
operation that can raise is modelled with an explicit error value.  Stateful
methods are modelled as functions from a `VocabState` to a pair of the new
state and a result, so that partial mutation on an error path is visible.
-/

set_option maxHeartbeats 1000000

namespace Yavoc

/-- The Python exceptions that the embedded code can raise. -/
inductive PyErr where
  | keyError
  | indexError
  | typeError
  | attributeError
deriving DecidableEq, Repr

/-- A Python dict from token to id: an insertion-ordered association list
with pairwise distinct keys (all values are written through `dictSet`). -/
abbrev Dict := List (String × Nat)

/-- A Python `collections.Counter`: an insertion-ordered association list
from token to occurrence count. -/
abbrev Counter := List (String × Nat)

/-- `d.get(k)` on a Python dict: the value of the first (only) entry whose
key equals `k`. -/
def dictGet (d : Dict) (k : String) : Option Nat :=
  match d with
  | [] => none
  | p :: ps => if p.1 = k then some p.2 else dictGet ps k

/-- `d[k] = v` on a Python dict: replace the value in place if the key is
present (keeping its position), otherwise append a new entry. -/
def dictSet (d : Dict) (k : String) (v : Nat) : Dict :=
  match d with
  | [] => [(k, v)]
  | p :: ps => if p.1 = k then (k, v) :: ps else p :: dictSet ps k v

/-- `CountVocabulary.add_token` (count.py line 117) and the direct insertions
in vocabulary.py: `self._token_to_index[token] = len(self._token_to_index)`. -/
def addToken (d : Dict) (t : String) : Dict :=
  dictSet d t d.length

/-- `counter.update([t])` restricted to one token: increment in place or
append a fresh entry with count 1. -/
def counterAddOne (c : Counter) (t : String) : Counter :=
  match c with
  | [] => [(t, 1)]
  | p :: ps => if p.1 = t then (p.1, p.2 + 1) :: ps else p :: counterAddOne ps t

/-- `counter.update(tokens)` over one token sequence. -/
def counterUpdateSeq (c : Counter) (ts : List String) : Counter :=
  ts.foldl counterAddOne c

/-- Add `n` occurrences of `t` (one key of `Counter.update(other_counter)`). -/
def counterAddMany (c : Counter) (t : String) (n : Nat) : Counter :=
  match c with
  | [] => [(t, n)]
  | p :: ps => if p.1 = t then (p.1, p.2 + n) :: ps else p :: counterAddMany ps t n

/-- `counter.update(other_counter)`: key-wise addition, existing keys keep
their position, new keys are appended in the order of `other`. -/
def counterMerge (c other : Counter) : Counter :=
  other.foldl (fun acc p => counterAddMany acc p.1 p.2) c

/-- The instance state shared by both Python variants: configuration,
token-to-id mapping, lazily built reverse index, and optional counter
(`None` models "no tokens ever counted"). -/
structure VocabState where
  padding : Bool
  paddingToken : String
  oovToken : String
  minCount : Nat
  maxVocabSize : Option Nat
  tokenToIndex : Dict
  indexToToken : List (Option String)
  counter : Option Counter
deriving DecidableEq, Repr

/-- One step of `sorted(counts, key=itemgetter(1), reverse=True)`: stable
insertion keeping earlier elements first among equal counts. -/
def insertByCountDesc (p : String × Nat) : List (String × Nat) → List (String × Nat)
  | [] => [p]
  | q :: qs => if p.2 < q.2 then q :: insertByCountDesc p qs else p :: q :: qs

/-- `sorted(counts, key=itemgetter(1), reverse=True)`: stable sort by
descending count (ties keep counter insertion order). -/
def sortByCountDesc : List (String × Nat) → List (String × Nat)
  | [] => []
  | p :: ps => insertByCountDesc p (sortByCountDesc ps)

/-- `init` / `_init`: fresh mapping holding the special tokens, padding
first when padding mode is on, then the oov token. -/
def initDict (padding : Bool) (padTok oovTok : String) : Dict :=
  addToken (if padding then addToken [] padTok else []) oovTok

/-- The state after `init` / `_init`: mapping reset to the specials, reverse
index cleared (`CountVocabulary.init` also resets `_index_to_token`). -/
def initState (s : VocabState) : VocabState :=
  { s with tokenToIndex := initDict s.padding s.paddingToken s.oovToken,
           indexToToken := [] }

/-- `actual_max_vocab_size is not None and len(d) >= actual_max_vocab_size`
(count.py line 93). -/
def capReached : Option Nat → Nat → Bool
  | none, _ => false
  | some m, n => m ≤ n

/-- The insertion loop of `CountVocabulary.build` (count.py lines 92-97):
break once the capacity is reached, skip counts below the threshold, else
insert the token at the next id. -/
def buildLoop (amvs : Option Nat) (minCount : Nat) :
    List (String × Nat) → Dict → Dict
  | [], d => d
  | (key, cnt) :: rest, d =>
    if capReached amvs d.length then d
    else if minCount ≠ 0 ∧ cnt < minCount then buildLoop amvs minCount rest d
    else buildLoop amvs minCount rest (addToken d key)

/-- `CountVocabulary.build` (count.py lines 86-97).  `init` runs first, then
`self._counter.items()` raises AttributeError when the counter is `None`
(leaving the freshly cleared mapping behind). -/
def buildS (s : VocabState) : VocabState × Option PyErr :=
  let s0 := initState s
  match s.counter with
  | none => (s0, some .attributeError)
  | some c =>
    let amvs := s.maxVocabSize.map (· + s0.tokenToIndex.length)
    ({ s0 with
        tokenToIndex := buildLoop amvs s.minCount (sortByCountDesc c) s0.tokenToIndex },
      none)

/-- The `min_count` property setter (count.py lines 41-45). -/
def setMinCount (s : VocabState) (v : Nat) : VocabState × Option PyErr :=
  if v ≠ s.minCount then buildS { s with minCount := v } else (s, none)

/-- The `max_vocab_size` property setter (count.py lines 51-55). -/
def setMaxVocabSize (s : VocabState) (v : Option Nat) : VocabState × Option PyErr :=
  if v ≠ s.maxVocabSize then buildS { s with maxVocabSize := v } else (s, none)

/-- `CountVocabulary.update` (count.py lines 78-84). -/
def update (s : VocabState) (sentences : List (List String)) :
    VocabState × Option PyErr :=
  let c := sentences.foldl counterUpdateSeq (s.counter.getD [])
  buildS { s with counter := some c }

/-- `CountVocabulary.merge_by_count` (count.py lines 71-76): no-op when the
argument has no (or an empty) counter. -/
def mergeByCount (s other : VocabState) : VocabState × Option PyErr :=
  match other.counter with
  | none => (s, none)
  | some oc =>
    if oc = [] then (s, none)
    else buildS { s with counter := some (counterMerge (s.counter.getD []) oc) }

/-- The insertion loop of `Vocabulary._rebuild` (vocabulary.py lines 202-207).
Unlike count.py, line 203 compares `len(self._token_to_index) >=
actual_max_vocab_size` without a `None` guard, so when `max_vocab_size` is
unset the first iteration raises `TypeError` (int >= None). -/
def rebuildLoop (amvs : Option Nat) (minCount : Nat) :
    List (String × Nat) → Dict → Dict × Option PyErr
  | [], d => (d, none)
  | (key, cnt) :: rest, d =>
    match amvs with
    | none => (d, some .typeError)
    | some m =>
      if m ≤ d.length then (d, none)
      else if minCount ≠ 0 ∧ cnt < minCount then rebuildLoop amvs minCount rest d
      else rebuildLoop amvs minCount rest (addToken d key)

/-- `Vocabulary._rebuild` (vocabulary.py lines 196-207). -/
def rebuildS (s : VocabState) : VocabState × Option PyErr :=
  let s0 := initState s
  match s.counter with
  | none => (s0, some .attributeError)
  | some c =>
    let amvs := s.maxVocabSize.map (· + s0.tokenToIndex.length)
    let r := rebuildLoop amvs s.minCount (sortByCountDesc c) s0.tokenToIndex
    ({ s0 with tokenToIndex := r.1 }, r.2)

/-- One token of `to_ids`:
`d.get(token, d[self._oov_token])` — the default argument is evaluated
eagerly, so a missing oov token raises `KeyError` for every token. -/
def toIdsToken (d : Dict) (oovTok : String) (t : String) : Except PyErr Int :=
  match dictGet d oovTok with
  | none => .error .keyError
  | some oovId => .ok (((dictGet d t).getD oovId : Nat) : Int)

/-- The inner loop of `to_ids` over one sentence. -/
def toIdsRow (d : Dict) (oovTok : String) : List String → Except PyErr (List Int)
  | [] => .ok []
  | t :: ts =>
    match toIdsToken d oovTok t with
    | .error e => .error e
    | .ok i =>
      match toIdsRow d oovTok ts with
      | .error e => .error e
      | .ok is => .ok (i :: is)

/-- The outer loop of `to_ids` over all sentences. -/
def toIdsRows (d : Dict) (oovTok : String) :
    List (List String) → Except PyErr (List (List Int))
  | [] => .ok []
  | r :: rs =>
    match toIdsRow d oovTok r with
    | .error e => .error e
    | .ok ids =>
      match toIdsRows d oovTok rs with
      | .error e => .error e
      | .ok idss => .ok (ids :: idss)

/-- Python slice `l[:k]` for an `int` bound `k`: a negative bound counts
from the end of the list (clamped at zero). -/
def pySliceTo (l : List α) (k : Int) : List α :=
  l.take (if k < 0 then ((l.length : Int) + k).toNat else k.toNat)

/-- `Vocabulary.to_ids` (base.py lines 71-83 and vocabulary.py lines 82-96,
which are identical): map every token, then, when padding mode is on and a
nonzero length was given, extend every row by
`([pad_id] * length)[: length - len(row)]`. -/
def toIds (s : VocabState) (sentences : List (List String)) (length : Option Nat) :
    Except PyErr (List (List Int)) :=
  match toIdsRows s.tokenToIndex s.oovToken sentences with
  | .error e => .error e
  | .ok retlist =>
    if s.padding = true ∧ length.getD 0 ≠ 0 then
      match dictGet s.tokenToIndex s.paddingToken with
      | none => .error .keyError
      | some padId =>
        let n := length.getD 0
        .ok (retlist.map fun row =>
          row ++ pySliceTo (List.replicate n ((padId : Nat) : Int)) ((n : Int) - row.length))
    else .ok retlist

/-- `to_ids` as a state transformer: the method assigns no attributes, so
the state passes through unchanged. -/
def toIdsS (s : VocabState) (sentences : List (List String)) (length : Option Nat) :
    VocabState × Except PyErr (List (List Int)) :=
  (s, toIds s sentences length)

/-- The assignment loop of `_build_index_to_token` (count.py lines 138-141):
`lst[token_id] = token` raises `IndexError` when the id is out of range,
leaving the assignments made so far in place. -/
def buildIndexAux : Dict → List (Option String) → List (Option String) × Option PyErr
  | [], lst => (lst, none)
  | (tok, i) :: rest, lst =>
    if i < lst.length then buildIndexAux rest (lst.set i (some tok))
    else (lst, some .indexError)

/-- `_build_index_to_token`: start from `[None] * len(d)` and assign
`lst[token_id] = token` for every entry. -/
def buildIndexToToken (d : Dict) : List (Option String) × Option PyErr :=
  buildIndexAux d (List.replicate d.length none)

/-- Python list subscription `lst[idx]` for an `int` index: negative indices
count from the end, anything out of range raises `IndexError`. -/
def pyListGet (lst : List (Option String)) (idx : Int) : Except PyErr (Option String) :=
  let j : Int := if idx < 0 then idx + lst.length else idx
  if 0 ≤ j ∧ j < lst.length then .ok (lst.getD j.toNat none) else .error .indexError

/-- `remove_paddings and padding_idx is not None and idx == padding_idx`. -/
def isPadHit (padIdx : Option Nat) (idx : Int) : Bool :=
  match padIdx with
  | some p => idx == (p : Int)
  | none => false

/-- The inner loop of `to_tokens` over one id sequence. -/
def toTokensRow (index : List (Option String)) (padIdx : Option Nat)
    (removePaddings : Bool) : List Int → Except PyErr (List (Option String))
  | [] => .ok []
  | idx :: rest =>
    if removePaddings && isPadHit padIdx idx then
      toTokensRow index padIdx removePaddings rest
    else
      match pyListGet index idx with
      | .error e => .error e
      | .ok tok =>
        match toTokensRow index padIdx removePaddings rest with
        | .error e => .error e
        | .ok toks => .ok (tok :: toks)

/-- The outer loop of `to_tokens` over all id sequences. -/
def toTokensRows (index : List (Option String)) (padIdx : Option Nat)
    (removePaddings : Bool) : List (List Int) → Except PyErr (List (List (Option String)))
  | [] => .ok []
  | r :: rs =>
    match toTokensRow index padIdx removePaddings r with
    | .error e => .error e
    | .ok toks =>
      match toTokensRows index padIdx removePaddings rs with
      | .error e => .error e
      | .ok tokss => .ok (toks :: tokss)

/-- `to_tokens` (count.py lines 57-69 and vocabulary.py lines 98-110): build
the reverse index lazily when it is empty (the partially filled index stays
assigned when the build raises), then map every id, dropping ids equal to
the padding id when requested. -/
def toTokensS (s : VocabState) (idSentences : List (List Int)) (removePaddings : Bool) :
    VocabState × Except PyErr (List (List (Option String))) :=
  if s.indexToToken.isEmpty then
    match buildIndexToToken s.tokenToIndex with
    | (idx, some e) => ({ s with indexToToken := idx }, .error e)
    | (idx, none) =>
      ({ s with indexToToken := idx },
        toTokensRows idx (dictGet s.tokenToIndex s.paddingToken) removePaddings idSentences)
  else
    (s, toTokensRows s.indexToToken (dictGet s.tokenToIndex s.paddingToken)
      removePaddings idSentences)

/-- The `need_sep` loop of `_dump` (base.py lines 119-125 and vocabulary.py
lines 214-220): write a separating newline before every token but the
first. -/
def dumpsLoop : List String → String × Bool → String × Bool
  | [], acc => acc
  | tok :: toks, (buf, needSep) =>
    dumpsLoop toks (buf ++ (if needSep then "\n" else "") ++ tok, true)

/-- `dumps`: serialize the mapping keys in id (= insertion) order with no
trailing newline.  `CountVocabulary.serialize_entry` writes the bare token. -/
def dumps (s : VocabState) : String :=
  (dumpsLoop (s.tokenToIndex.map Prod.fst) ("", false)).1

/-- `dumps` as a state transformer: the method assigns no attributes. -/
def dumpsS (s : VocabState) : VocabState × String :=
  (s, dumps s)

/-- `token.strip("\n")`: remove every leading and trailing newline
character. -/
def dropNL (l : List Char) : List Char :=
  ((l.dropWhile (· = '\n')).reverse.dropWhile (· = '\n')).reverse

/-- `token.strip("\n")` on a string. -/
def stripNL (s : String) : String :=
  String.mk (dropNL s.data)

/-- The loop of `Vocabulary.loads` (vocabulary.py lines 77-80): strip each
line, skip lines equal to a special token, insert the rest at the next id. -/
def loadsLoop (padTok oovTok : String) : List String → Dict → Dict
  | [], d => d
  | line :: rest, d =>
    let token := stripNL line
    if token = padTok ∨ token = oovTok then loadsLoop padTok oovTok rest d
    else loadsLoop padTok oovTok rest (dictSet d token d.length)

/-- `Vocabulary.loads` (vocabulary.py lines 74-80) applied to a sequence of
input lines: `_init`, then the line loop.  The counter is untouched. -/
def loadsS (s : VocabState) (lines : List String) : VocabState :=
  let s0 := initState s
  { s0 with
      tokenToIndex := loadsLoop s.paddingToken s.oovToken lines s0.tokenToIndex }

/-- The raw newline-separated segments of a character stream: the pieces
between newline characters, including a final (possibly empty) piece after
the last newline.  A helper for `linesOfText`. -/
def splitNLChars : List Char → List (List Char)
  | [] => [[]]
  | c :: cs =>
    match splitNLChars cs with
    | [] => [[]]
    | r :: rs => if c = '\n' then [] :: r :: rs else (c :: r) :: rs

/-- Rebuild the lines a Python text-stream iterator yields from the
newline-separated segments of a text: every segment but the last keeps its
terminating newline, and a trailing empty segment (text that is empty or
ends in a newline) yields no further line — Python iteration of `"a\n"`
gives `["a\n"]`, of `""` gives `[]`. -/
def keepEnds : List String → List String
  | [] => []
  | [s] => if s = "" then [] else [s]
  | s :: s₂ :: rest => (s ++ "\n") :: keepEnds (s₂ :: rest)

/-- The lines of a dumped text, exactly as Python file or `StringIO`
iteration yields them to `loads`: newline-terminated lines, with no
trailing empty line when the text ends in a newline. -/
def linesOfText (text : String) : List String :=
  keepEnds ((splitNLChars text.data).map String.mk)

/-- `vocab_size` (base.py lines 33-40 and vocabulary.py lines 54-61): total
mapping size minus one for each special token present in the mapping. -/
def vocabSize (s : VocabState) : Nat :=
  let sz := s.tokenToIndex.length
  let sz := if (dictGet s.tokenToIndex s.paddingToken).isSome then sz - 1 else sz
  if (dictGet s.tokenToIndex s.oovToken).isSome then sz - 1 else sz

/-! ### Expected shapes of built mappings

`withIds n ks` lists the tokens `ks` with consecutive ids starting at `n`;
`select` mirrors the decisions of the build loop (capacity break, threshold
skip) while recording only the inserted tokens; `builtDict` is the mapping
a clean build produces. -/

/-- Tokens paired with consecutive ids starting at `n`. -/
def withIds : Nat → List String → Dict
  | _, [] => []
  | n, k :: ks => (k, n) :: withIds (n + 1) ks

/-- The tokens the build loop inserts, given the current mapping size `n`. -/
def select (amvs : Option Nat) (minCount : Nat) : Nat → List (String × Nat) → List String
  | _, [] => []
  | n, (key, cnt) :: rest =>
    if capReached amvs n then []
    else if minCount ≠ 0 ∧ cnt < minCount then select amvs minCount n rest
    else key :: select amvs minCount (n + 1) rest

/-- The number of counted tokens whose count reaches `minCount` (the spec
measure that `vocab_size` is compared with). -/
def eligCount (minCount : Nat) (c : List (String × Nat)) : Nat :=
  c.countP (fun p => minCount ≤ p.2)

/-- The mapping a clean `build` produces: specials first, then the selected
tokens at consecutive ids. -/
def builtDict (s : VocabState) (c : Counter) : Dict :=
  initDict s.padding s.paddingToken s.oovToken ++
    withIds (initDict s.padding s.paddingToken s.oovToken).length
      (select (s.maxVocabSize.map (· + (initDict s.padding s.paddingToken s.oovToken).length))
        s.minCount (initDict s.padding s.paddingToken s.oovToken).length
        (sortByCountDesc c))

/-- A mapping whose entry at position `i` carries id `i` (ids are dense and
follow insertion order). -/
def Canonical (d : Dict) : Prop :=
  d.map Prod.snd = List.range' 0 d.length

/-- The mapping invariant claimed by the spec: every id in `[0, size)` has
exactly one token, and every token of the mapping has an id. -/
def DenseBijection (d : Dict) : Prop :=
  (∀ i : Nat, (∃ t, dictGet d t = some i) ↔ i < d.length) ∧
  (∀ t t' : String, ∀ i : Nat,
    dictGet d t = some i → dictGet d t' = some i → t = t') ∧
  (∀ t : String, t ∈ d.map Prod.fst ↔ ∃ i, dictGet d t = some i)

/-- The hypotheses under which a build is clean: a counter is present, its
keys are pairwise distinct, no counted token is literally a special token
string, and the two special strings differ. -/
def CleanState (s : VocabState) (c : Counter) : Prop :=
  s.counter = some c ∧
  (c.map Prod.fst).Nodup ∧
  (∀ p ∈ c, p.1 ≠ s.paddingToken ∧ p.1 ≠ s.oovToken) ∧
  s.paddingToken ≠ s.oovToken

/-- The non-special tokens that the `loads` loop of vocabulary.py inserts:
the stripped lines that differ from both special tokens. -/
def nonSpecialLines (padTok oovTok : String) (lines : List String) : List String :=
  (lines.map stripNL).filter (fun t => decide (¬(t = padTok ∨ t = oovTok)))

/-- The newline-joined character data of a list of token data. -/
def joinNLData : List (List Char) → List Char
  | [] => []
  | [t] => t
  | t :: t' :: ts => t ++ '\n' :: joinNLData (t' :: ts)

/-- A fresh default-configured instance, as the constructors create it when
no sentences are given: empty mapping, no counter. -/
def freshState : VocabState :=
  { padding := true, paddingToken := "@@PADDING@@", oovToken := "@@UNKNOWN@@",
    minCount := 1, maxVocabSize := none, tokenToIndex := [], indexToToken := [],
    counter := none }

/-- The state after counting the single sentence `["a", "a"]`. -/
def builtA : VocabState :=
  { freshState with
    counter := some [("a", 2)],
    tokenToIndex := [("@@PADDING@@", 0), ("@@UNKNOWN@@", 1), ("a", 2)] }

/-- The state after counting the spec example `[["a","b","a"],["b","c"]]`. -/
def builtABC : VocabState :=
  { freshState with
    counter := some [("a", 2), ("b", 2), ("c", 1)],
    tokenToIndex := [("@@PADDING@@", 0), ("@@UNKNOWN@@", 1), ("a", 2), ("b", 3), ("c", 4)] }

/-- A padding-free state whose single counted token is literally the oov
token string. -/
def builtOovClash : VocabState :=
  { freshState with
    padding := false,
    counter := some [("@@UNKNOWN@@", 1)],
    tokenToIndex := [("@@UNKNOWN@@", 1)] }

/-- The tokens a clean build selects, in insertion order. -/
def builtSel (s : VocabState) (c : Counter) : List String :=
  select (s.maxVocabSize.map (· + (initDict s.padding s.paddingToken s.oovToken).length))
    s.minCount (initDict s.padding s.paddingToken s.oovToken).length (sortByCountDesc c)

/-! ### Dictionary lemmas -/

theorem dictGet_eq_none_of_not_mem {d : Dict} {k : String}
    (h : k ∉ d.map Prod.fst) : dictGet d k = none := by
  induction d with
  | nil => rfl
  | cons p ps ih =>
    simp only [List.map_cons, List.mem_cons, not_or] at h
    rw [dictGet, if_neg (fun hh => h.1 hh.symm)]
    exact ih h.2

theorem dictGet_isSome_of_mem {d : Dict} {k : String}
    (h : k ∈ d.map Prod.fst) : (dictGet d k).isSome := by
  induction d with
  | nil => simp at h
  | cons p ps ih =>
    rw [dictGet]
    by_cases hp : p.1 = k
    · simp [hp]
    · rw [if_neg hp]
      simp only [List.map_cons, List.mem_cons] at h
      exact ih (h.resolve_left (fun hh => hp hh.symm))

theorem dictGet_some_mem {d : Dict} {t : String} {i : Nat}
    (h : dictGet d t = some i) : (t, i) ∈ d := by
  induction d with
  | nil => simp [dictGet] at h
  | cons p ps ih =>
    rw [dictGet] at h
    by_cases hp : p.1 = t
    · rw [if_pos hp] at h
      have hpv : p = (t, i) := Prod.ext hp (Option.some_injective _ h)
      rw [← hpv]
      exact List.mem_cons_self p ps
    · exact List.mem_cons_of_mem _ (ih (by rwa [if_neg hp] at h))

theorem dictGet_of_mem_nodup {d : Dict} (hnd : (d.map Prod.fst).Nodup)
    {t : String} {i : Nat} (h : (t, i) ∈ d) : dictGet d t = some i := by
  induction d with
  | nil => simp at h
  | cons p ps ih =>
    rw [List.map_cons, List.nodup_cons] at hnd
    rcases List.mem_cons.mp h with rfl | hmem
    · simp [dictGet]
    · rw [dictGet, if_neg, ih hnd.2 hmem]
      intro hh
      exact hnd.1 (hh ▸ List.mem_map_of_mem Prod.fst hmem)

theorem dictSet_of_not_mem {d : Dict} {k : String} (v : Nat)
    (h : k ∉ d.map Prod.fst) : dictSet d k v = d ++ [(k, v)] := by
  induction d with
  | nil => rfl
  | cons p ps ih =>
    simp only [List.map_cons, List.mem_cons, not_or] at h
    rw [dictSet, if_neg (fun hh => h.1 hh.symm), ih h.2]
    rfl

/-! ### Canonical mappings -/

theorem canonical_nil : Canonical [] := rfl

theorem canonical_append_singleton {d : Dict} (hc : Canonical d) (k : String) :
    Canonical (d ++ [(k, d.length)]) := by
  unfold Canonical at *
  rw [List.map_append, hc, List.length_append]
  simp [List.range'_concat]

theorem canonical_entry {d : Dict} (hc : Canonical d) {t : String} {i : Nat}
    (h : (t, i) ∈ d) : d[i]? = some (t, i) := by
  obtain ⟨j, hj, hget⟩ := List.mem_iff_getElem.mp h
  have hq : d[j]? = some (t, i) := by rw [List.getElem?_eq_getElem hj, hget]
  have h1 : (d.map Prod.snd)[j]? = some i := by
    rw [List.getElem?_map, hq]
    rfl
  have h2 : (List.range' 0 d.length)[j]? = some (0 + 1 * j) :=
    List.getElem?_range' 0 1 hj
  rw [← hc, h1] at h2
  obtain rfl : i = j := by
    have := Option.some.inj h2
    omega
  exact hq

theorem canonical_entry_lt {d : Dict} (hc : Canonical d) {t : String} {i : Nat}
    (h : (t, i) ∈ d) : i < d.length := by
  obtain ⟨hlt, _⟩ := List.getElem?_eq_some.mp (canonical_entry hc h)
  exact hlt

theorem canonical_dictGet_iff {d : Dict} (hc : Canonical d)
    (hnd : (d.map Prod.fst).Nodup) {t : String} {i : Nat} :
    dictGet d t = some i ↔ d[i]? = some (t, i) := by
  constructor
  · intro h
    exact canonical_entry hc (dictGet_some_mem h)
  · intro h
    exact dictGet_of_mem_nodup hnd (List.getElem?_mem h)

/-! ### `withIds` lemmas -/

theorem withIds_map_fst (n : Nat) (ks : List String) :
    (withIds n ks).map Prod.fst = ks := by
  induction ks generalizing n with
  | nil => rfl
  | cons k ks ih => rw [withIds, List.map_cons, ih]

theorem withIds_length (n : Nat) (ks : List String) :
    (withIds n ks).length = ks.length := by
  have := withIds_map_fst n ks
  simpa using congrArg List.length this

theorem withIds_map_snd (n : Nat) (ks : List String) :
    (withIds n ks).map Prod.snd = List.range' n ks.length := by
  induction ks generalizing n with
  | nil => rfl
  | cons k ks ih =>
    rw [withIds, List.map_cons, ih, List.length_cons, List.range'_succ]

theorem canonical_append_withIds {d : Dict} (hc : Canonical d) (ks : List String) :
    Canonical (d ++ withIds d.length ks) := by
  unfold Canonical at *
  rw [List.map_append, hc, withIds_map_snd, List.length_append, withIds_length]
  have := List.range'_append 0 d.length ks.length 1
  simpa [Nat.add_comm] using this

/-! ### The stable descending sort -/

theorem insertByCountDesc_perm (p : String × Nat) (l : List (String × Nat)) :
    (insertByCountDesc p l).Perm (p :: l) := by
  induction l with
  | nil => exact List.Perm.refl _
  | cons q qs ih =>
    rw [insertByCountDesc]
    by_cases h : p.2 < q.2
    · rw [if_pos h]
      exact (ih.cons q).trans (List.Perm.swap p q qs)
    · rw [if_neg h]

theorem sortByCountDesc_perm (l : List (String × Nat)) :
    (sortByCountDesc l).Perm l := by
  induction l with
  | nil => exact List.Perm.refl _
  | cons p ps ih =>
    exact (insertByCountDesc_perm p (sortByCountDesc ps)).trans (ih.cons p)

/-! ### The selection made by the build loop -/

theorem skip_iff (mc cnt : Nat) : (mc ≠ 0 ∧ cnt < mc) ↔ ¬ mc ≤ cnt := by omega

theorem eligCount_cons (mc : Nat) (p : String × Nat) (rest : List (String × Nat)) :
    eligCount mc (p :: rest) = eligCount mc rest + (if mc ≤ p.2 then 1 else 0) := by
  simp [eligCount, List.countP_cons]

theorem select_sublist (amvs : Option Nat) (mc : Nat) :
    ∀ (counts : List (String × Nat)) (n : Nat),
      (select amvs mc n counts).Sublist (counts.map Prod.fst) := by
  intro counts
  induction counts with
  | nil => intro n; exact List.Sublist.refl _
  | cons p rest ih =>
    obtain ⟨key, cnt⟩ := p
    intro n
    rw [select]
    by_cases hcap : capReached amvs n
    · rw [if_pos hcap]
      exact List.nil_sublist _
    · rw [if_neg hcap]
      by_cases hskip : mc ≠ 0 ∧ cnt < mc
      · rw [if_pos hskip]
        exact (ih n).cons key
      · rw [if_neg hskip]
        exact (ih (n + 1)).cons₂ key

theorem select_length_none (mc : Nat) :
    ∀ (counts : List (String × Nat)) (n : Nat),
      (select none mc n counts).length = eligCount mc counts := by
  intro counts
  induction counts with
  | nil => intro n; rfl
  | cons p rest ih =>
    obtain ⟨key, cnt⟩ := p
    intro n
    rw [select]
    have hcap : ¬ capReached none n = true := by simp [capReached]
    rw [if_neg hcap]
    by_cases hskip : mc ≠ 0 ∧ cnt < mc
    · rw [if_pos hskip, ih n, eligCount_cons]
      have : ¬ mc ≤ cnt := (skip_iff mc cnt).mp hskip
      simp [this]
    · rw [if_neg hskip, List.length_cons, ih (n + 1), eligCount_cons]
      have : mc ≤ cnt := by
        by_contra hle
        exact hskip ((skip_iff mc cnt).mpr hle)
      simp [this]

theorem select_length_some (mc m : Nat) :
    ∀ (counts : List (String × Nat)) (n : Nat), n ≤ m →
      (select (some m) mc n counts).length = min (eligCount mc counts) (m - n) := by
  intro counts
  induction counts with
  | nil => intro n _; simp [select, eligCount]
  | cons p rest ih =>
    obtain ⟨key, cnt⟩ := p
    intro n hnm
    rw [select]
    by_cases hcap : capReached (some m) n
    · rw [if_pos hcap]
      have hle : m ≤ n := by simpa [capReached] using hcap
      have : m - n = 0 := by omega
      simp [this]
    · rw [if_neg hcap]
      have hlt : n < m := by
        simp only [capReached, decide_eq_true_eq] at hcap
        omega
      by_cases hskip : mc ≠ 0 ∧ cnt < mc
      · rw [if_pos hskip, ih n hnm, eligCount_cons]
        have : ¬ mc ≤ cnt := (skip_iff mc cnt).mp hskip
        simp [this]
      · rw [if_neg hskip, List.length_cons, ih (n + 1) hlt, eligCount_cons]
        have : mc ≤ cnt := by
          by_contra hle
          exact hskip ((skip_iff mc cnt).mpr hle)
        rw [if_pos this]
        omega

/-! ### Structure of the mapping after `build` -/

theorem buildLoop_structure (amvs : Option Nat) (mc : Nat) :
    ∀ (counts : List (String × Nat)) (d : Dict),
      Canonical d →
      (counts.map Prod.fst).Nodup →
      (∀ k ∈ counts.map Prod.fst, k ∉ d.map Prod.fst) →
      buildLoop amvs mc counts d =
        d ++ withIds d.length (select amvs mc d.length counts) := by
  intro counts
  induction counts with
  | nil => intro d _ _ _; simp [buildLoop, select, withIds]
  | cons p rest ih =>
    obtain ⟨key, cnt⟩ := p
    intro d hc hnd hfresh
    rw [buildLoop, select]
    by_cases hcap : capReached amvs d.length
    · rw [if_pos hcap, if_pos hcap]
      simp [withIds]
    · rw [if_neg hcap, if_neg hcap]
      have hnd0 : key ∉ rest.map Prod.fst ∧ (rest.map Prod.fst).Nodup := by
        rw [List.map_cons, List.nodup_cons] at hnd
        exact hnd
      by_cases hskip : mc ≠ 0 ∧ cnt < mc
      · rw [if_pos hskip, if_pos hskip]
        exact ih d hc hnd0.2 (fun k hk => hfresh k (by simp [hk]))
      · rw [if_neg hskip, if_neg hskip]
        have hkey : key ∉ d.map Prod.fst := hfresh key (by simp)
        have hadd : addToken d key = d ++ [(key, d.length)] :=
          dictSet_of_not_mem _ hkey
        have hfresh' :
            ∀ k ∈ rest.map Prod.fst, k ∉ (d ++ [(key, d.length)]).map Prod.fst := by
          intro k hk
          rw [List.map_append, List.mem_append]
          rintro (hkd | hkk)
          · exact hfresh k (by simp [hk]) hkd
          · simp only [List.map_cons, List.map_nil, List.mem_singleton] at hkk
            exact hnd0.1 (hkk ▸ hk)
        rw [hadd, ih _ (canonical_append_singleton hc key) hnd0.2 hfresh']
        rw [List.length_append, List.append_assoc]
        simp [withIds]

theorem nonSpecialLines_cons (padTok oovTok line : String) (rest : List String) :
    nonSpecialLines padTok oovTok (line :: rest) =
      if stripNL line = padTok ∨ stripNL line = oovTok then
        nonSpecialLines padTok oovTok rest
      else stripNL line :: nonSpecialLines padTok oovTok rest := by
  by_cases h : stripNL line = padTok ∨ stripNL line = oovTok
  · rw [if_pos h]
    simp only [nonSpecialLines, List.map_cons, List.filter_cons]
    rw [if_neg]
    simp only [Bool.not_eq_true, decide_eq_false_iff_not, not_not]
    exact h
  · rw [if_neg h]
    simp only [nonSpecialLines, List.map_cons, List.filter_cons]
    rw [if_pos]
    simp only [decide_eq_true_eq]
    exact h

theorem loadsLoop_structure (padTok oovTok : String) :
    ∀ (lines : List String) (d : Dict),
      Canonical d →
      (nonSpecialLines padTok oovTok lines).Nodup →
      (∀ t ∈ nonSpecialLines padTok oovTok lines, t ∉ d.map Prod.fst) →
      loadsLoop padTok oovTok lines d =
        d ++ withIds d.length (nonSpecialLines padTok oovTok lines) := by
  intro lines
  induction lines with
  | nil => intro d _ _ _; simp [loadsLoop, nonSpecialLines, withIds]
  | cons line rest ih =>
    intro d hc hnd hfresh
    rw [loadsLoop, nonSpecialLines_cons]
    by_cases hsp : stripNL line = padTok ∨ stripNL line = oovTok
    · rw [if_pos hsp, if_pos hsp]
      rw [nonSpecialLines_cons, if_pos hsp] at hnd hfresh
      exact ih d hc hnd hfresh
    · rw [if_neg hsp, if_neg hsp]
      rw [nonSpecialLines_cons, if_neg hsp] at hnd hfresh
      rw [List.nodup_cons] at hnd
      have htok : stripNL line ∉ d.map Prod.fst := hfresh _ (by simp)
      have hset : dictSet d (stripNL line) d.length = d ++ [(stripNL line, d.length)] :=
        dictSet_of_not_mem _ htok
      have hfresh' : ∀ t ∈ nonSpecialLines padTok oovTok rest,
          t ∉ (d ++ [(stripNL line, d.length)]).map Prod.fst := by
        intro t ht
        rw [List.map_append, List.mem_append]
        rintro (htd | htt)
        · exact hfresh t (by simp [ht]) htd
        · simp only [List.map_cons, List.map_nil, List.mem_singleton] at htt
          exact hnd.1 (htt ▸ ht)
      rw [hset, ih _ (canonical_append_singleton hc _) hnd.2 hfresh']
      rw [List.length_append, List.append_assoc]
      simp [withIds]

/-! ### The initial mapping of special tokens -/

theorem initDict_padding {padTok oovTok : String} (h : padTok ≠ oovTok) :
    initDict true padTok oovTok = [(padTok, 0), (oovTok, 1)] := by
  simp [initDict, addToken, dictSet, h]

theorem initDict_no_padding (padTok oovTok : String) :
    initDict false padTok oovTok = [(oovTok, 0)] := rfl

theorem canonical_initDict {padTok oovTok : String} (h : padTok ≠ oovTok) :
    ∀ padding, Canonical (initDict padding padTok oovTok)
  | true => by rw [initDict_padding h]; rfl
  | false => by rw [initDict_no_padding]; rfl

theorem mem_initDict_keys {padTok oovTok t : String} (h : padTok ≠ oovTok) :
    ∀ {padding : Bool}, t ∈ (initDict padding padTok oovTok).map Prod.fst →
      t = padTok ∨ t = oovTok := by
  intro padding hmem
  cases padding
  · rw [initDict_no_padding] at hmem
    simp at hmem
    exact Or.inr hmem
  · rw [initDict_padding h] at hmem
    simpa using hmem

theorem initDict_keys_nodup {padTok oovTok : String} (h : padTok ≠ oovTok) :
    ∀ padding, ((initDict padding padTok oovTok).map Prod.fst).Nodup
  | true => by rw [initDict_padding h]; simp [h]
  | false => by rw [initDict_no_padding]; simp

/-! ### The mapping a clean build produces -/

theorem buildS_clean {s : VocabState} {c : Counter} (h : CleanState s c) :
    buildS s = ({ initState s with tokenToIndex := builtDict s c }, none) := by
  obtain ⟨hc, hnd, hsp, hpo⟩ := h
  have hsortnd : ((sortByCountDesc c).map Prod.fst).Nodup :=
    (((sortByCountDesc_perm c).map Prod.fst).nodup_iff).mpr hnd
  have hfresh : ∀ k ∈ (sortByCountDesc c).map Prod.fst,
      k ∉ (initDict s.padding s.paddingToken s.oovToken).map Prod.fst := by
    intro k hk hbad
    have hkc : k ∈ c.map Prod.fst := ((sortByCountDesc_perm c).map Prod.fst).mem_iff.mp hk
    obtain ⟨p, hp, hpk⟩ := List.mem_map.mp hkc
    rcases mem_initDict_keys hpo hbad with hkp | hko
    · exact (hsp p hp).1 (hpk.trans hkp)
    · exact (hsp p hp).2 (hpk.trans hko)
  unfold buildS
  rw [hc]
  simp only [initState]
  rw [buildLoop_structure _ _ _ _ (canonical_initDict hpo s.padding) hsortnd hfresh]
  rfl

theorem builtDict_canonical {s : VocabState} {c : Counter} (h : CleanState s c) :
    Canonical (builtDict s c) :=
  canonical_append_withIds (canonical_initDict h.2.2.2 s.padding) _

theorem builtDict_keys {s : VocabState} (c : Counter) :
    (builtDict s c).map Prod.fst =
      (initDict s.padding s.paddingToken s.oovToken).map Prod.fst ++
        select (s.maxVocabSize.map (· + (initDict s.padding s.paddingToken s.oovToken).length))
          s.minCount (initDict s.padding s.paddingToken s.oovToken).length
          (sortByCountDesc c) := by
  rw [builtDict, List.map_append, withIds_map_fst]

theorem builtDict_selected_not_special {s : VocabState} {c : Counter}
    (h : CleanState s c) {t : String}
    (ht : t ∈ select (s.maxVocabSize.map (· + (initDict s.padding s.paddingToken s.oovToken).length))
      s.minCount (initDict s.padding s.paddingToken s.oovToken).length (sortByCountDesc c)) :
    t ≠ s.paddingToken ∧ t ≠ s.oovToken := by
  have hmem : t ∈ (sortByCountDesc c).map Prod.fst :=
    (select_sublist _ _ _ _).mem ht
  have hkc : t ∈ c.map Prod.fst := ((sortByCountDesc_perm c).map Prod.fst).mem_iff.mp hmem
  obtain ⟨p, hp, hpk⟩ := List.mem_map.mp hkc
  exact ⟨fun hh => (h.2.2.1 p hp).1 (hpk.trans hh), fun hh => (h.2.2.1 p hp).2 (hpk.trans hh)⟩

theorem builtDict_keys_nodup {s : VocabState} {c : Counter} (h : CleanState s c) :
    ((builtDict s c).map Prod.fst).Nodup := by
  rw [builtDict_keys]
  have hsortnd : ((sortByCountDesc c).map Prod.fst).Nodup :=
    (((sortByCountDesc_perm c).map Prod.fst).nodup_iff).mpr h.2.1
  refine List.nodup_append.mpr ⟨initDict_keys_nodup h.2.2.2 s.padding,
    (select_sublist _ _ _ _).nodup hsortnd, ?_⟩
  intro a ha hb
  rcases mem_initDict_keys h.2.2.2 ha with rfl | rfl
  · exact (builtDict_selected_not_special h hb).1 rfl
  · exact (builtDict_selected_not_special h hb).2 rfl

theorem builtDict_get_pad {s : VocabState} {c : Counter} (h : CleanState s c) :
    dictGet (builtDict s c) s.paddingToken =
      if s.padding then some 0 else none := by
  rw [builtDict]
  cases hp : s.padding
  · rw [initDict_no_padding]
    simp only [List.cons_append, List.nil_append]
    rw [dictGet, if_neg (fun hh => h.2.2.2 hh.symm)]
    apply dictGet_eq_none_of_not_mem
    rw [withIds_map_fst]
    intro hmem
    refine (builtDict_selected_not_special h (t := s.paddingToken) ?_).1 rfl
    rw [hp, initDict_no_padding]
    exact hmem
  · rw [initDict_padding h.2.2.2]
    simp only [List.cons_append, List.nil_append]
    simp [dictGet]

theorem builtDict_get_oov {s : VocabState} {c : Counter} (h : CleanState s c) :
    dictGet (builtDict s c) s.oovToken =
      some (if s.padding then 1 else 0) := by
  rw [builtDict]
  cases hp : s.padding
  · rw [initDict_no_padding]
    simp only [List.cons_append, List.nil_append]
    simp [dictGet]
  · rw [initDict_padding h.2.2.2]
    simp only [List.cons_append, List.nil_append]
    rw [dictGet, if_neg h.2.2.2, dictGet, if_pos rfl]
    simp

theorem builtDict_length {s : VocabState} (c : Counter) :
    (builtDict s c).length =
      (initDict s.padding s.paddingToken s.oovToken).length +
        (select (s.maxVocabSize.map (· + (initDict s.padding s.paddingToken s.oovToken).length))
          s.minCount (initDict s.padding s.paddingToken s.oovToken).length
          (sortByCountDesc c)).length := by
  rw [builtDict, List.length_append, withIds_length]

/-! ### Dense bijectivity of canonical mappings -/

theorem denseBijection_of_canonical {d : Dict} (hc : Canonical d)
    (hnd : (d.map Prod.fst).Nodup) : DenseBijection d := by
  refine ⟨?_, ?_, ?_⟩
  · intro i
    constructor
    · rintro ⟨t, ht⟩
      exact (List.getElem?_eq_some.mp ((canonical_dictGet_iff hc hnd).mp ht)).1
    · intro hi
      refine ⟨d[i].1, ?_⟩
      rw [canonical_dictGet_iff hc hnd]
      have hmem : d[i] ∈ d := List.getElem_mem hi
      have hpair : d[i] = (d[i].1, d[i].2) := rfl
      have hq := canonical_entry hc (t := d[i].1) (i := d[i].2) (hpair ▸ hmem)
      have hlt := canonical_entry_lt hc (t := d[i].1) (i := d[i].2) (hpair ▸ hmem)
      rw [List.getElem?_eq_getElem hlt] at hq
      have h4 := Option.some.inj hq
      have hnodup : d.Nodup := hnd.of_map Prod.fst
      have hsnd : d[i].2 = i := by
        have heq : d[d[i].2] = d[i] := by rw [h4, ← hpair]
        exact (List.Nodup.getElem_inj_iff hnodup).mp heq
      rw [List.getElem?_eq_getElem hi]
      exact congrArg some (Prod.ext rfl hsnd)
  · intro t t' i ht ht'
    have h1 := (canonical_dictGet_iff hc hnd).mp ht
    have h2 := (canonical_dictGet_iff hc hnd).mp ht'
    exact congrArg Prod.fst (Option.some.inj (h1.symm.trans h2))
  · intro t
    constructor
    · intro ht
      obtain ⟨p, hp, hpk⟩ := List.mem_map.mp ht
      exact ⟨p.2, dictGet_of_mem_nodup hnd (by rw [← hpk]; exact hp)⟩
    · rintro ⟨i, hi⟩
      exact List.mem_map.mpr ⟨(t, i), dictGet_some_mem hi, rfl⟩

/-! ### The reverse index built by `_build_index_to_token` -/

theorem buildIndexAux_ok :
    ∀ (entries : Dict) (lst : List (Option String)),
      (∀ p ∈ entries, p.2 < lst.length) →
      buildIndexAux entries lst =
        (entries.foldl (fun l p => l.set p.2 (some p.1)) lst, none) := by
  intro entries
  induction entries with
  | nil => intro lst _; rfl
  | cons p rest ih =>
    obtain ⟨tok, i⟩ := p
    intro lst hb
    rw [buildIndexAux, if_pos (hb (tok, i) (List.mem_cons_self _ _))]
    rw [List.foldl_cons]
    exact ih _ (fun q hq => by
      rw [List.length_set]
      exact hb q (List.mem_cons_of_mem _ hq))

theorem canonical_append_case {d' : Dict} {tok : String} {k : Nat}
    (hc : Canonical (d' ++ [(tok, k)])) : Canonical d' ∧ k = d'.length := by
  unfold Canonical at hc
  rw [List.map_append, List.length_append] at hc
  simp only [List.map_cons, List.map_nil, List.length_cons, List.length_nil] at hc
  rw [List.range'_concat] at hc
  have hlen : (d'.map Prod.snd).length = (List.range' 0 d'.length).length := by
    simp
  obtain ⟨h1, h2⟩ := List.append_inj hc hlen
  refine ⟨h1, ?_⟩
  simp at h2
  omega

theorem foldl_set_canonical :
    ∀ (d : Dict), Canonical d → ∀ n, d.length ≤ n →
      d.foldl (fun l p => l.set p.2 (some p.1)) (List.replicate n none) =
        d.map (fun p => some p.1) ++ List.replicate (n - d.length) none := by
  intro d
  induction d using List.reverseRecOn with
  | nil => intro _ n _; simp
  | append_singleton d' p ih =>
    obtain ⟨tok, k⟩ := p
    intro hc n hn
    obtain ⟨hc', hk⟩ := canonical_append_case hc
    subst hk
    rw [List.length_append] at hn
    simp only [List.length_cons, List.length_nil] at hn
    rw [List.foldl_concat]
    rw [ih hc' n (by omega)]
    rw [List.set_append]
    rw [if_neg (by simp)]
    have hrepl : n - d'.length = (n - d'.length - 1) + 1 := by omega
    rw [List.length_map, Nat.sub_self, hrepl, List.replicate_succ, List.set_cons_zero]
    have hlen2 : n - d'.length - 1 = n - (d' ++ [(tok, d'.length)]).length := by
      rw [List.length_append]
      simp only [List.length_cons, List.length_nil]
      omega
    rw [hlen2, List.map_append, List.append_assoc]
    rfl

theorem buildIndexToToken_canonical {d : Dict} (hc : Canonical d) :
    buildIndexToToken d = (d.map (fun p => some p.1), none) := by
  rw [buildIndexToToken, buildIndexAux_ok d _ (fun p hp => by
    rw [List.length_replicate]
    exact canonical_entry_lt hc (show (p.1, p.2) ∈ d from hp))]
  rw [foldl_set_canonical d hc d.length (le_refl _), Nat.sub_self]
  simp

theorem indexAgrees {d : Dict} (hc : Canonical d) (hnd : (d.map Prod.fst).Nodup)
    {t : String} {i : Nat} :
    dictGet d t = some i ↔ (d.map (fun p => some p.1))[i]? = some (some t) := by
  rw [canonical_dictGet_iff hc hnd]
  constructor
  · intro h
    rw [List.getElem?_map, h]
    rfl
  · intro h
    rw [List.getElem?_map] at h
    cases hq : d[i]? with
    | none => rw [hq] at h; simp at h
    | some p =>
      rw [hq] at h
      have hfst : p.1 = t := by
        have h3 : some p.1 = some t := Option.some.inj h
        exact Option.some.inj h3
      have hlen : i < d.length := (List.getElem?_eq_some.mp hq).1
      have h1 : (d.map Prod.snd)[i]? = some p.2 := by
        rw [List.getElem?_map, hq]
        rfl
      have h2 : (List.range' 0 d.length)[i]? = some (0 + 1 * i) :=
        List.getElem?_range' 0 1 hlen
      rw [← hc, h1] at h2
      have hsnd : p.2 = i := by
        have := Option.some.inj h2
        omega
      exact congrArg some (Prod.ext hfst hsnd)

/-! ### The dumped text and its lines -/

theorem dumpsLoop_data :
    ∀ (ks : List String) (buf : String), ks ≠ [] →
      ((dumpsLoop ks (buf, true)).1.data =
        buf.data ++ '\n' :: joinNLData (ks.map String.data)) ∧
      ((dumpsLoop ks (buf, false)).1.data =
        buf.data ++ joinNLData (ks.map String.data)) := by
  intro ks
  induction ks with
  | nil => intro buf h; exact absurd rfl h
  | cons t ts ih =>
    intro buf _
    cases ts with
    | nil =>
      constructor
      · simp [dumpsLoop, String.data_append, joinNLData]
      · simp [dumpsLoop, String.data_append, joinNLData]
    | cons t' ts' =>
      have ih1 := ih (buf ++ "\n" ++ t) (by simp)
      have ih2 := ih (buf ++ "" ++ t) (by simp)
      constructor
      · show ((dumpsLoop (t' :: ts') (buf ++ "\n" ++ t, true)).1.data = _)
        rw [ih1.1]
        simp [String.data_append, joinNLData]
      · show ((dumpsLoop (t' :: ts') (buf ++ "" ++ t, true)).1.data = _)
        rw [ih2.1]
        simp [String.data_append, joinNLData]

theorem dumps_data {s : VocabState} (h : s.tokenToIndex ≠ []) :
    (dumps s).data = joinNLData ((s.tokenToIndex.map Prod.fst).map String.data) := by
  have h2 : s.tokenToIndex.map Prod.fst ≠ [] := by simpa using h
  have := (dumpsLoop_data (s.tokenToIndex.map Prod.fst) "" h2).2
  simpa [dumps] using this

theorem splitNLChars_ne_nil (l : List Char) : splitNLChars l ≠ [] := by
  cases l with
  | nil => simp [splitNLChars]
  | cons c cs =>
    rw [splitNLChars]
    cases splitNLChars cs with
    | nil => simp
    | cons r rs =>
      by_cases h : c = '\n' <;> simp [h]

theorem splitNLChars_newline (cs : List Char) :
    splitNLChars ('\n' :: cs) = [] :: splitNLChars cs := by
  rw [splitNLChars]
  cases hq : splitNLChars cs with
  | nil => exact absurd hq (splitNLChars_ne_nil cs)
  | cons r rs => simp

theorem splitNLChars_no_newline :
    ∀ (t : List Char), (∀ c ∈ t, c ≠ '\n') →
      ∀ (rest r : List Char) (rs : List (List Char)),
        splitNLChars rest = r :: rs →
        splitNLChars (t ++ rest) = (t ++ r) :: rs := by
  intro t
  induction t with
  | nil => intro _ rest r rs h; simpa using h
  | cons c t' ih =>
    intro hnl rest r rs h
    rw [List.cons_append, splitNLChars,
      ih (fun x hx => hnl x (List.mem_cons_of_mem _ hx)) rest r rs h]
    simp [hnl c (List.mem_cons_self _ _)]

theorem splitNL_joinNLData :
    ∀ (ts : List (List Char)), ts ≠ [] → (∀ t ∈ ts, ∀ c ∈ t, c ≠ '\n') →
      splitNLChars (joinNLData ts) = ts := by
  intro ts
  induction ts with
  | nil => intro h _; exact absurd rfl h
  | cons t ts' ih =>
    intro _ hnl
    cases ts' with
    | nil =>
      have := splitNLChars_no_newline t (hnl t (List.mem_cons_self _ _)) [] [] [] rfl
      simpa [joinNLData] using this
    | cons t' ts'' =>
      rw [joinNLData]
      have hrec := ih (by simp) (fun u hu c hc => hnl u (List.mem_cons_of_mem _ hu) c hc)
      have h1 : splitNLChars ('\n' :: joinNLData (t' :: ts'')) = [] :: t' :: ts'' := by
        rw [splitNLChars_newline, hrec]
      have := splitNLChars_no_newline t (hnl t (List.mem_cons_self _ _))
        ('\n' :: joinNLData (t' :: ts'')) [] (t' :: ts'') h1
      simpa using this

/-! ### Stripping newlines -/

theorem dropWhile_no_newline :
    ∀ (l : List Char), (∀ c ∈ l, c ≠ '\n') → l.dropWhile (· = '\n') = l := by
  intro l h
  cases l with
  | nil => rfl
  | cons c cs =>
    rw [List.dropWhile_cons]
    rw [if_neg (by simpa using h c (List.mem_cons_self _ _))]

theorem dropNL_of_no_newline {l : List Char} (h : ∀ c ∈ l, c ≠ '\n') :
    dropNL l = l := by
  unfold dropNL
  rw [dropWhile_no_newline l h,
    dropWhile_no_newline l.reverse (fun c hc => h c (List.mem_reverse.mp hc)),
    List.reverse_reverse]

theorem stripNL_of_no_newline {t : String} (h : ∀ c ∈ t.data, c ≠ '\n') :
    stripNL t = t := by
  unfold stripNL
  rw [dropNL_of_no_newline h]

/-! ### Helper lemmas for the codec -/

theorem toIdsRow_ok {d : Dict} {oovTok : String} {oovId : Nat}
    (hoov : dictGet d oovTok = some oovId) :
    ∀ row : List String,
      toIdsRow d oovTok row =
        .ok (row.map (fun t => (((dictGet d t).getD oovId : Nat) : Int))) := by
  intro row
  induction row with
  | nil => rfl
  | cons t ts ih =>
    rw [toIdsRow, toIdsToken, hoov]
    rw [ih]
    rfl

theorem toIdsRows_ok {d : Dict} {oovTok : String} {oovId : Nat}
    (hoov : dictGet d oovTok = some oovId) :
    ∀ sents : List (List String),
      toIdsRows d oovTok sents =
        .ok (sents.map (fun row =>
          row.map (fun t => (((dictGet d t).getD oovId : Nat) : Int)))) := by
  intro sents
  induction sents with
  | nil => rfl
  | cons r rs ih =>
    rw [toIdsRows, toIdsRow_ok hoov, ih]
    rfl

theorem toIdsRows_empty_dict (oovTok : String) :
    ∀ sents : List (List String), (∃ row ∈ sents, row ≠ []) →
      toIdsRows [] oovTok sents = .error .keyError := by
  intro sents
  induction sents with
  | nil => rintro ⟨row, hrow, _⟩; simp at hrow
  | cons r rs ih =>
    rintro ⟨row, hrow, hne⟩
    cases r with
    | nil =>
      have hrs : row ∈ rs := by
        rcases List.mem_cons.mp hrow with rfl | h
        · exact absurd rfl hne
        · exact h
      rw [toIdsRows]
      rw [show toIdsRow [] oovTok [] = .ok [] from rfl, ih ⟨row, hrs, hne⟩]
    | cons t ts =>
      rw [toIdsRows]
      rw [show toIdsRow [] oovTok (t :: ts) = .error .keyError from rfl]

theorem pyListGet_nil (idx : Int) : pyListGet [] idx = .error .indexError := by
  unfold pyListGet
  rw [if_neg]
  simp only [List.length_nil]
  omega

theorem toTokensRows_empty_index (padIdx : Option Nat) (rp : Bool) :
    ∀ idss : List (List Int), padIdx = none → (∃ row ∈ idss, row ≠ []) →
      toTokensRows [] padIdx rp idss = .error .indexError := by
  intro idss
  induction idss with
  | nil => rintro _ ⟨row, hrow, _⟩; simp at hrow
  | cons r rs ih =>
    rintro hpad ⟨row, hrow, hne⟩
    cases r with
    | nil =>
      have hrs : row ∈ rs := by
        rcases List.mem_cons.mp hrow with rfl | h
        · exact absurd rfl hne
        · exact h
      rw [toTokensRows]
      rw [show toTokensRow [] padIdx rp [] = .ok [] from rfl, ih hpad ⟨row, hrs, hne⟩]
    | cons i is =>
      rw [toTokensRows, toTokensRow]
      subst hpad
      rw [show (rp && isPadHit none i) = false by simp [isPadHit]]
      simp only [Bool.false_eq_true, if_false]
      rw [pyListGet_nil]

theorem pyListGet_nat {lst : List (Option String)} {j : Nat} (h : j < lst.length) :
    pyListGet lst (j : Int) = .ok (lst.getD j none) := by
  unfold pyListGet
  rw [if_neg (by omega : ¬ ((j : Int) < 0))]
  rw [if_pos (by constructor <;> omega)]
  simp

/-! ### Concrete instances used in the claim analyses -/

/-! ### Claim C1 -/

/-- C1: the claim says that with `max_vocab_size` unset, build/rebuild
succeeds and inserts every eligible token.  `CountVocabulary.build` does
(second conjunct), but `Vocabulary._rebuild` in vocabulary.py compares
`len(mapping) >= None` on its first loop iteration and raises `TypeError`,
leaving only the special tokens in the mapping (first conjunct): the code
contradicts the spec and its own sibling implementation. -/
theorem c1_unbounded_build :
    rebuildS { freshState with counter := some [("a", 1)] } =
      ({ freshState with
          counter := some [("a", 1)],
          tokenToIndex := [("@@PADDING@@", 0), ("@@UNKNOWN@@", 1)] },
        some PyErr.typeError) ∧
    buildS { freshState with counter := some [("a", 1)] } =
      ({ freshState with
          counter := some [("a", 1)],
          tokenToIndex := [("@@PADDING@@", 0), ("@@UNKNOWN@@", 1), ("a", 2)] },
        none) := by
  constructor
  · rfl
  · rfl

/-! ### Claim C2 -/

/-- C2: the claim says sequences at or beyond `pad_length` are returned
unchanged.  With `pad_length = 2` and a three-token sentence, the Python
slice `([pad] * 2)[: 2 - 3]` is `([pad] * 2)[:-1] = [pad]`, so `to_ids`
returns a four-element row: a sequence beyond `pad_length` is lengthened. -/
theorem c2_overlong_row_lengthened :
    toIds builtA [["a", "a", "a"]] (some 2) = .ok [[2, 2, 2, 0]] ∧
    ([[2, 2, 2, 0]] : List (List Int)) ≠ [[2, 2, 2]] := by
  constructor
  · rfl
  · decide

/-! ### Claim C3 -/

/-- C3: the claim says a failed build leaves the previous mapping
untouched.  On a vocabulary whose mapping was loaded (so no counter
exists), assigning a new `min_count` triggers `build()`, which first runs
`init()` (clearing the mapping down to the special tokens) and only then
raises `AttributeError` on `None.items()`: the loaded mapping is lost, so
the code violates the claimed atomic-replace semantics. -/
theorem c3_failed_build_clears_mapping :
    setMinCount
        { freshState with
            tokenToIndex := [("@@PADDING@@", 0), ("@@UNKNOWN@@", 1), ("x", 2)] } 5 =
      ({ freshState with
          minCount := 5,
          tokenToIndex := [("@@PADDING@@", 0), ("@@UNKNOWN@@", 1)] },
        some PyErr.attributeError) ∧
    [("@@PADDING@@", 0), ("@@UNKNOWN@@", 1)] ≠
      [("@@PADDING@@", 0), ("@@UNKNOWN@@", 1), ("x", 2)] := by
  constructor
  · rfl
  · decide

/-! ### Claim C6 -/

theorem eligCount_sort (mc : Nat) (c : Counter) :
    eligCount mc (sortByCountDesc c) = eligCount mc c :=
  (sortByCountDesc_perm c).countP_eq _

theorem initDict_length {padTok oovTok : String} (h : padTok ≠ oovTok) :
    ∀ padding, (initDict padding padTok oovTok).length = if padding then 2 else 1
  | true => by rw [initDict_padding h]; rfl
  | false => by rw [initDict_no_padding]; rfl

/-- C6 counterexample: when the single counted token is literally the oov
string, the one mapping entry is the (reassigned) oov token, so
`vocab_size` is 0 although one counted token reaches `min_count = 1`: the
claim as stated is false. -/
theorem c6_counterexample :
    buildS { freshState with padding := false, counter := some [("@@UNKNOWN@@", 1)] } =
      (builtOovClash, none) ∧
    vocabSize builtOovClash = 0 ∧
    eligCount 1 [("@@UNKNOWN@@", 1)] = 1 := by
  refine ⟨rfl, rfl, by decide⟩

/-- C6 amended: after a clean build (distinct counted tokens, none equal to
a special token string), `vocab_size` equals the number of counted tokens
with count at least `min_count`, capped at `max_vocab_size` when set. -/
theorem c6_vocabSize (s s' : VocabState) (c : Counter) (h : CleanState s c)
    (hb : buildS s = (s', none)) :
    vocabSize s' =
      (match s.maxVocabSize with
        | none => eligCount s.minCount c
        | some m => min (eligCount s.minCount c) m) := by
  have hs' : ({ initState s with tokenToIndex := builtDict s c } : VocabState) = s' := by
    have := (buildS_clean h).symm.trans hb
    exact congrArg Prod.fst this
  subst hs'
  have hpo := h.2.2.2
  unfold vocabSize
  simp only [initState]
  rw [builtDict_get_pad h, builtDict_get_oov h, builtDict_length]
  have hsel :
      (select (s.maxVocabSize.map (· + (initDict s.padding s.paddingToken s.oovToken).length))
        s.minCount (initDict s.padding s.paddingToken s.oovToken).length
        (sortByCountDesc c)).length =
      (match s.maxVocabSize with
        | none => eligCount s.minCount c
        | some m => min (eligCount s.minCount c) m) := by
    cases hm : s.maxVocabSize with
    | none =>
      show (select none s.minCount
          (initDict s.padding s.paddingToken s.oovToken).length (sortByCountDesc c)).length =
        eligCount s.minCount c
      rw [select_length_none, eligCount_sort]
    | some m =>
      show (select (some (m + (initDict s.padding s.paddingToken s.oovToken).length)) s.minCount
          (initDict s.padding s.paddingToken s.oovToken).length (sortByCountDesc c)).length =
        min (eligCount s.minCount c) m
      rw [select_length_some _ _ _ _ (by omega), eligCount_sort]
      omega
  rw [hsel]
  rw [initDict_length hpo]
  cases s.padding <;> simp

/-! ### Claim C7 -/

/-- C7 counterexample: build over the counter `{"@@UNKNOWN@@": 1}` with
padding disabled produces the mapping `{"@@UNKNOWN@@": 1}` of size 1 in
which no token carries id 0: ids are not dense, so the claimed bijection
invariant fails when a counted token equals a special token string. -/
theorem c7_counterexample :
    buildS { freshState with padding := false, counter := some [("@@UNKNOWN@@", 1)] } =
      (builtOovClash, none) ∧
    builtOovClash.tokenToIndex.length = 1 ∧
    ¬ ∃ t, dictGet builtOovClash.tokenToIndex t = some 0 := by
  refine ⟨rfl, rfl, ?_⟩
  rintro ⟨t, ht⟩
  have := dictGet_some_mem ht
  simp [builtOovClash, freshState] at this

theorem mem_nonSpecialLines {padTok oovTok t : String} {lines : List String}
    (h : t ∈ nonSpecialLines padTok oovTok lines) : t ≠ padTok ∧ t ≠ oovTok := by
  have := List.of_mem_filter h
  simp only [decide_eq_true_eq] at this
  exact ⟨fun hh => this (Or.inl hh), fun hh => this (Or.inr hh)⟩

/-- C7 amended: the token-to-id mapping is a dense bijection for every
state produced by a clean build (distinct counted tokens, none equal to a
special string) or by `loads` of vocabulary.py on lines whose non-special
stripped tokens are distinct; the literal-special corner of the original
claim is exactly what fails. -/
theorem c7_denseBijection (s s' : VocabState)
    (h : (∃ c, CleanState s c ∧ buildS s = (s', none)) ∨
      (∃ lines, (nonSpecialLines s.paddingToken s.oovToken lines).Nodup ∧
        s.paddingToken ≠ s.oovToken ∧ loadsS s lines = s')) :
    DenseBijection s'.tokenToIndex := by
  rcases h with ⟨c, hclean, hb⟩ | ⟨lines, hnd, hpo, hl⟩
  · have hs' : ({ initState s with tokenToIndex := builtDict s c } : VocabState) = s' := by
      have := (buildS_clean hclean).symm.trans hb
      exact congrArg Prod.fst this
    subst hs'
    exact denseBijection_of_canonical (builtDict_canonical hclean)
      (builtDict_keys_nodup hclean)
  · subst hl
    simp only [loadsS, initState]
    rw [loadsLoop_structure _ _ _ _ (canonical_initDict hpo s.padding) hnd
      (fun t ht hbad => by
        rcases mem_initDict_keys hpo hbad with rfl | rfl
        · exact (mem_nonSpecialLines ht).1 rfl
        · exact (mem_nonSpecialLines ht).2 rfl)]
    refine denseBijection_of_canonical
      (canonical_append_withIds (canonical_initDict hpo s.padding) _) ?_
    rw [List.map_append, withIds_map_fst]
    refine List.nodup_append.mpr ⟨initDict_keys_nodup hpo s.padding, hnd, ?_⟩
    intro a ha hb
    rcases mem_initDict_keys hpo ha with rfl | rfl
    · exact (mem_nonSpecialLines hb).1 rfl
    · exact (mem_nonSpecialLines hb).2 rfl

/-- C7 witness: the dense-bijection invariant holds for the mapping built
from the spec example counts. -/
theorem c7_denseBijection_witness : DenseBijection builtABC.tokenToIndex :=
  c7_denseBijection { freshState with counter := some [("a", 2), ("b", 2), ("c", 1)] }
    builtABC (Or.inl ⟨[("a", 2), ("b", 2), ("c", 1)],
      ⟨rfl, by decide, by decide, by decide⟩, by rfl⟩)

/-! ### Claim C8 -/

/-- C8 counterexample: on a never-built vocabulary, `to_ids []`,
`to_tokens []` and `dumps` all return empty results without raising: there
is no fail-fast `NotBuiltError` behavior in the code. -/
theorem c8_counterexample :
    toIds freshState [] none = .ok [] ∧
    (toTokensS freshState [] true).2 = .ok [] ∧
    dumps freshState = "" := by
  refine ⟨rfl, rfl, rfl⟩

/-- C8 amended: on a never-built vocabulary (empty mapping, empty reverse
index), `to_ids` fails — with `KeyError`, from the eager oov-default
lookup — as soon as any sentence contains a token, `to_tokens` fails with
`IndexError` as soon as any row contains an id, and `dump` silently writes
an empty text; empty inputs return empty results without error. -/
theorem c8_unbuilt (s : VocabState)
    (hdict : s.tokenToIndex = []) (hidx : s.indexToToken = []) :
    (∀ sentences l, (∃ row ∈ sentences, row ≠ []) →
      toIds s sentences l = .error .keyError) ∧
    (∀ idss, (∃ row ∈ idss, row ≠ []) →
      (toTokensS s idss true).2 = .error .indexError) ∧
    dumps s = "" := by
  refine ⟨?_, ?_, ?_⟩
  · intro sentences l hne
    unfold toIds
    rw [hdict, toIdsRows_empty_dict _ _ hne]
  · intro idss hne
    unfold toTokensS
    rw [hidx]
    simp only [List.isEmpty_nil, if_true]
    rw [hdict]
    show (toTokensRows [] (dictGet [] s.paddingToken) true idss = .error .indexError)
    exact toTokensRows_empty_index _ _ _ rfl hne
  · rw [dumps, hdict]
    rfl

/-- C8 witness: the amended behavior at concrete inputs. -/
theorem c8_unbuilt_witness :
    toIds freshState [["a"]] none = .error .keyError ∧
    (toTokensS freshState [[0]] true).2 = .error .indexError ∧
    dumps freshState = "" := by
  have h := c8_unbuilt freshState rfl rfl
  exact ⟨h.1 [["a"]] none ⟨["a"], by simp⟩, h.2.1 [[0]] ⟨[0], by simp⟩, h.2.2⟩

/-- C6 witness: the amended vocab-size law at the spec example counts
(three distinct tokens, `min_count = 1`, no cap, so `vocab_size = 3`). -/
theorem c6_vocabSize_witness :
    vocabSize builtABC = eligCount 1 [("a", 2), ("b", 2), ("c", 1)] :=
  c6_vocabSize
    { freshState with counter := some [("a", 2), ("b", 2), ("c", 1)] } builtABC
    [("a", 2), ("b", 2), ("c", 1)]
    ⟨rfl, by decide, by decide, by decide⟩ (by rfl)

/-! ### Claim C4 -/

theorem toTokensRow_enc {d : Dict} (hc : Canonical d)
    (hnd : (d.map Prod.fst).Nodup) {oovTok : String} {oovId : Nat}
    (hoov : dictGet d oovTok = some oovId) (padIdx : Option Nat) :
    ∀ row : List String,
      (∀ j, padIdx = some j → oovId ≠ j ∧ ∀ t ∈ row, dictGet d t ≠ some j) →
      toTokensRow (d.map (fun p => some p.1)) padIdx true
          (row.map (fun t => (((dictGet d t).getD oovId : Nat) : Int))) =
        .ok (row.map (fun t =>
          some (if (dictGet d t).isSome then t else oovTok))) := by
  intro row
  induction row with
  | nil => intro _; rfl
  | cons t ts ih =>
    intro hsafe
    rw [List.map_cons, toTokensRow]
    have hjlt : ((dictGet d t).getD oovId) < d.length := by
      cases hdt : dictGet d t with
      | none => simpa [hdt] using canonical_entry_lt hc (dictGet_some_mem hoov)
      | some i => simpa [hdt] using canonical_entry_lt hc (dictGet_some_mem hdt)
    have hhit : (true && isPadHit padIdx (((dictGet d t).getD oovId : Nat) : Int)) = false := by
      cases hpi : padIdx with
      | none => simp [isPadHit]
      | some p =>
        obtain ⟨hop, hrow⟩ := hsafe p hpi
        have hne : (dictGet d t).getD oovId ≠ p := by
          cases hdt : dictGet d t with
          | none => simpa [hdt] using hop
          | some i =>
            have hh := hrow t (List.mem_cons_self _ _)
            simp only [hdt, Option.getD_some]
            intro hip
            exact hh (by rw [hdt, hip])
        simp [isPadHit, hne]
    rw [hhit]
    simp only [Bool.false_eq_true, if_false]
    have hlen : ((dictGet d t).getD oovId) < (d.map (fun p => some p.1)).length := by
      rwa [List.length_map]
    rw [pyListGet_nat hlen]
    have hval : (d.map (fun p => some p.1)).getD ((dictGet d t).getD oovId) none =
        some (if (dictGet d t).isSome then t else oovTok) := by
      cases hdt : dictGet d t with
      | none =>
        have hidx := (indexAgrees hc hnd).mp hoov
        rw [List.getD_eq_getElem?_getD]
        simp [hdt, hidx]
      | some i =>
        have hidx := (indexAgrees hc hnd).mp hdt
        rw [List.getD_eq_getElem?_getD]
        simp [hdt, hidx]
    rw [hval]
    rw [ih (fun j hj =>
      ⟨(hsafe j hj).1, fun u hu => (hsafe j hj).2 u (List.mem_cons_of_mem _ hu)⟩)]
    rfl

theorem toTokensRows_enc {d : Dict} (hc : Canonical d)
    (hnd : (d.map Prod.fst).Nodup) {oovTok : String} {oovId : Nat}
    (hoov : dictGet d oovTok = some oovId) (padIdx : Option Nat) :
    ∀ sents : List (List String),
      (∀ j, padIdx = some j → oovId ≠ j ∧ ∀ row ∈ sents, ∀ t ∈ row, dictGet d t ≠ some j) →
      toTokensRows (d.map (fun p => some p.1)) padIdx true
          (sents.map (fun row =>
            row.map (fun t => (((dictGet d t).getD oovId : Nat) : Int)))) =
        .ok (sents.map (fun row => row.map (fun t =>
          some (if (dictGet d t).isSome then t else oovTok)))) := by
  intro sents
  induction sents with
  | nil => intro _; rfl
  | cons r rs ih =>
    intro hsafe
    rw [List.map_cons, toTokensRows]
    rw [toTokensRow_enc hc hnd hoov padIdx r (fun j hj =>
      ⟨(hsafe j hj).1, fun u hu => (hsafe j hj).2 r (List.mem_cons_self _ _) u hu⟩)]
    rw [ih (fun j hj =>
      ⟨(hsafe j hj).1, fun row hrow u hu => (hsafe j hj).2 row (List.mem_cons_of_mem _ hrow) u hu⟩)]
    rfl

theorem toIds_none (s₀ : VocabState) (sents : List (List String)) :
    toIds s₀ sents none = toIdsRows s₀.tokenToIndex s₀.oovToken sents := by
  unfold toIds
  cases h : toIdsRows s₀.tokenToIndex s₀.oovToken sents with
  | error e => rfl
  | ok r => exact if_neg (by simp)

theorem toTokensS_fresh {s₀ : VocabState} (hidx : s₀.indexToToken = [])
    (hcan : Canonical s₀.tokenToIndex) (ids : List (List Int)) (rp : Bool) :
    toTokensS s₀ ids rp =
      ({ s₀ with indexToToken := s₀.tokenToIndex.map (fun p => some p.1) },
        toTokensRows (s₀.tokenToIndex.map (fun p => some p.1))
          (dictGet s₀.tokenToIndex s₀.paddingToken) rp ids) := by
  unfold toTokensS
  rw [hidx]
  simp only [List.isEmpty_nil, if_true]
  rw [buildIndexToToken_canonical hcan]

/-- C4 counterexample: on a built vocabulary whose mapping contains the
padding token at id 0, `to_ids [["@@PADDING@@"]]` yields `[[0]]`, and
`to_tokens` (with its default `remove_paddings=True`) drops that id,
returning `[[]]` instead of the original token: the claimed
position-for-position round trip fails for an input token that is present
in the mapping. -/
theorem c4_counterexample :
    buildS { freshState with counter := some [("a", 2)] } = (builtA, none) ∧
    dictGet builtA.tokenToIndex "@@PADDING@@" = some 0 ∧
    toIds builtA [["@@PADDING@@"]] none = .ok [[0]] ∧
    (toTokensS builtA [[0]] true).2 = .ok [[]] := by
  refine ⟨rfl, rfl, rfl, rfl⟩

/-- C4 amended: on a cleanly built vocabulary, for sentences none of whose
tokens is the padding token string, `to_tokens (to_ids sentences)`
returns, position for position, the original token when it is in the
mapping and the oov token when it is not. -/
theorem c4_roundtrip (s s' : VocabState) (c : Counter) (h : CleanState s c)
    (hb : buildS s = (s', none)) (sentences : List (List String))
    (hnp : ∀ row ∈ sentences, ∀ t ∈ row, t ≠ s.paddingToken) :
    ∃ idss, toIds s' sentences none = .ok idss ∧
      (toTokensS s' idss true).2 =
        .ok (sentences.map (fun row => row.map (fun t =>
          some (if (dictGet s'.tokenToIndex t).isSome then t else s.oovToken)))) := by
  have hs' : ({ initState s with tokenToIndex := builtDict s c } : VocabState) = s' := by
    have := (buildS_clean h).symm.trans hb
    exact congrArg Prod.fst this
  subst hs'
  have hcan := builtDict_canonical h
  have hnd := builtDict_keys_nodup h
  have hoov := builtDict_get_oov h
  have hpad := builtDict_get_pad h
  refine ⟨sentences.map (fun row => row.map (fun t =>
    (((dictGet (builtDict s c) t).getD (if s.padding then 1 else 0) : Nat) : Int))), ?_, ?_⟩
  · rw [toIds_none]
    show toIdsRows (builtDict s c) s.oovToken sentences = _
    rw [toIdsRows_ok hoov]
  · rw [toTokensS_fresh rfl hcan]
    show toTokensRows ((builtDict s c).map (fun p => some p.1))
        (dictGet (builtDict s c) s.paddingToken) true _ = _
    refine toTokensRows_enc hcan hnd hoov _ sentences ?_
    intro j hj
    rw [hpad] at hj
    cases hsp : s.padding
    · rw [hsp] at hj
      simp at hj
    · rw [hsp] at hj
      simp only [if_true] at hj
      obtain rfl : (0 : Nat) = j := Option.some.inj hj
      refine ⟨by simp [hsp], ?_⟩
      intro row hrow t ht hbad
      have hpad0 : dictGet (builtDict s c) s.paddingToken = some 0 := by
        rw [hpad, hsp]
        simp
      have h1 := (canonical_dictGet_iff hcan hnd).mp hbad
      have h2 := (canonical_dictGet_iff hcan hnd).mp hpad0
      have := Option.some.inj (h1.symm.trans h2)
      exact hnp row hrow t ht (congrArg Prod.fst this)

/-- C4 witness: the amended round trip at the spec example, where `a` is
in the mapping and `x` falls back to the oov token. -/
theorem c4_roundtrip_witness :
    ∃ idss, toIds builtA [["a", "x"]] none = .ok idss ∧
      (toTokensS builtA idss true).2 =
        .ok ([["a", "x"]].map (fun row => row.map (fun t =>
          some (if (dictGet builtA.tokenToIndex t).isSome then t else "@@UNKNOWN@@")))) :=
  c4_roundtrip { freshState with counter := some [("a", 2)] } builtA [("a", 2)]
    ⟨rfl, by decide, by decide, by decide⟩ (by rfl) [["a", "x"]] (by decide)

/-! ### Claim C9 -/

theorem builtDict_length_pos {s : VocabState} {c : Counter} (h : CleanState s c) :
    1 ≤ (builtDict s c).length := by
  rw [builtDict_length]
  have hl := initDict_length h.2.2.2 s.padding
  cases hsp : s.padding <;> rw [hsp] at hl <;> simp at hl <;> omega

/-- C9 counterexample: on the built spec-example vocabulary of size 5,
`to_tokens [[-1]]` does not fail: Python negative indexing wraps around
and returns the token at position 4, namely `"c"`. -/
theorem c9_counterexample :
    buildS { freshState with counter := some [("a", 2), ("b", 2), ("c", 1)] } =
      (builtABC, none) ∧
    (toTokensS builtABC [[-1]] true).2 = .ok [[some "c"]] := by
  refine ⟨rfl, rfl⟩

/-- C9 amended: on a cleanly built vocabulary, `to_tokens` fails with
`IndexError` for every id at or beyond the mapping size and for every
negative id below `-size`; negative ids in `[-size, -1]` wrap around
Python-style and return a token (see the counterexample). -/
theorem c9_out_of_range (s s' : VocabState) (c : Counter) (h : CleanState s c)
    (hb : buildS s = (s', none)) (i : Int)
    (hi : (s'.tokenToIndex.length : Int) ≤ i ∨ i < -(s'.tokenToIndex.length : Int)) :
    (toTokensS s' [[i]] true).2 = .error .indexError := by
  have hs' : ({ initState s with tokenToIndex := builtDict s c } : VocabState) = s' := by
    have := (buildS_clean h).symm.trans hb
    exact congrArg Prod.fst this
  subst hs'
  have hcan := builtDict_canonical h
  have hpad := builtDict_get_pad h
  have hlen1 := builtDict_length_pos h
  have hi' : ((builtDict s c).length : Int) ≤ i ∨ i < -((builtDict s c).length : Int) := hi
  rw [toTokensS_fresh rfl hcan]
  show toTokensRows ((builtDict s c).map (fun p => some p.1))
      (dictGet (builtDict s c) s.paddingToken) true [[i]] = .error .indexError
  have hhit : (true && isPadHit (dictGet (builtDict s c) s.paddingToken) i) = false := by
    rw [hpad]
    cases hsp : s.padding
    · simp [isPadHit]
    · simp only [if_true]
      have : i ≠ 0 := by rcases hi' with h1 | h1 <;> omega
      simp [isPadHit, this]
  have hpy : pyListGet ((builtDict s c).map (fun p => some p.1)) i = .error .indexError := by
    unfold pyListGet
    apply if_neg
    rw [List.length_map]
    by_cases hneg : i < 0
    · rw [if_pos hneg]
      rcases hi' with h1 | h1 <;> omega
    · rw [if_neg hneg]
      rcases hi' with h1 | h1 <;> omega
  rw [toTokensRows, toTokensRow, hhit]
  simp only [Bool.false_eq_true, if_false]
  rw [hpy]

/-- C9 witness: id 9 on the size-5 built spec-example vocabulary fails
with the indexing error. -/
theorem c9_out_of_range_witness :
    (toTokensS builtABC [[9]] true).2 = .error .indexError :=
  c9_out_of_range { freshState with counter := some [("a", 2), ("b", 2), ("c", 1)] }
    builtABC [("a", 2), ("b", 2), ("c", 1)]
    ⟨rfl, by decide, by decide, by decide⟩ (by rfl) 9 (by decide)

/-! ### Claim C10 -/

/-- C10 counterexample: `to_tokens` on the (built) mapping whose single
counted token is literally the oov string assigns the placeholder reverse
index `[None]` and then raises: the created index does not agree with the
mapping, which holds the oov token at id 1. -/
theorem c10_counterexample :
    buildS { freshState with padding := false, counter := some [("@@UNKNOWN@@", 1)] } =
      (builtOovClash, none) ∧
    toTokensS builtOovClash [[0]] true =
      ({ builtOovClash with indexToToken := [none] }, .error .indexError) ∧
    dictGet builtOovClash.tokenToIndex "@@UNKNOWN@@" = some 1 ∧
    (toTokensS builtOovClash [[0]] true).1.indexToToken[1]? ≠ some (some "@@UNKNOWN@@") := by
  refine ⟨rfl, rfl, rfl, by decide⟩

/-- C10 amended: `to_ids` and `dumps` never change the state; `to_tokens`
changes nothing but the lazily built reverse index; and on a cleanly built
vocabulary the created reverse index agrees with the mapping (entry `i` of
the index holds exactly the token mapped to id `i`). -/
theorem c10_frame (s s' : VocabState) (c : Counter) (h : CleanState s c)
    (hb : buildS s = (s', none)) :
    (∀ s₀ sents l, toIdsS s₀ sents l = (s₀, toIds s₀ sents l)) ∧
    (∀ s₀, dumpsS s₀ = (s₀, dumps s₀)) ∧
    (∀ s₀ ids rp,
      (toTokensS s₀ ids rp).1.padding = s₀.padding ∧
      (toTokensS s₀ ids rp).1.paddingToken = s₀.paddingToken ∧
      (toTokensS s₀ ids rp).1.oovToken = s₀.oovToken ∧
      (toTokensS s₀ ids rp).1.minCount = s₀.minCount ∧
      (toTokensS s₀ ids rp).1.maxVocabSize = s₀.maxVocabSize ∧
      (toTokensS s₀ ids rp).1.tokenToIndex = s₀.tokenToIndex ∧
      (toTokensS s₀ ids rp).1.counter = s₀.counter) ∧
    (∀ ids rp (t : String) (i : Nat),
      dictGet s'.tokenToIndex t = some i ↔
        (toTokensS s' ids rp).1.indexToToken[i]? = some (some t)) := by
  have hs' : ({ initState s with tokenToIndex := builtDict s c } : VocabState) = s' := by
    have := (buildS_clean h).symm.trans hb
    exact congrArg Prod.fst this
  subst hs'
  have hcan := builtDict_canonical h
  have hnd := builtDict_keys_nodup h
  refine ⟨fun s₀ sents l => rfl, fun s₀ => rfl, ?_, ?_⟩
  · intro s₀ ids rp
    unfold toTokensS
    by_cases hq : s₀.indexToToken.isEmpty
    · rw [if_pos hq]
      rcases hbi : buildIndexToToken s₀.tokenToIndex with ⟨idx, e⟩
      cases e <;> exact ⟨rfl, rfl, rfl, rfl, rfl, rfl, rfl⟩
    · rw [if_neg hq]
      exact ⟨rfl, rfl, rfl, rfl, rfl, rfl, rfl⟩
  · intro ids rp t i
    rw [toTokensS_fresh rfl hcan]
    show dictGet (builtDict s c) t = some i ↔
      ((builtDict s c).map (fun p => some p.1))[i]? = some (some t)
    exact indexAgrees hcan hnd

/-- C10 witness: the frame and index-agreement facts at the built
single-token vocabulary. -/
theorem c10_frame_witness :
    toIdsS builtA [["a"]] none = (builtA, toIds builtA [["a"]] none) ∧
    dumpsS builtA = (builtA, dumps builtA) ∧
    (dictGet builtA.tokenToIndex "a" = some 2 ↔
      (toTokensS builtA [[0]] true).1.indexToToken[2]? = some (some "a")) := by
  have hfr := c10_frame { freshState with counter := some [("a", 2)] } builtA [("a", 2)]
    ⟨rfl, by decide, by decide, by decide⟩ (by rfl)
  exact ⟨hfr.1 builtA [["a"]] none, hfr.2.1 builtA, hfr.2.2.2 [[0]] true "a" 2⟩

/-! ### Claim C5 -/

theorem builtDict_def (s : VocabState) (c : Counter) :
    builtDict s c =
      initDict s.padding s.paddingToken s.oovToken ++
        withIds (initDict s.padding s.paddingToken s.oovToken).length (builtSel s c) := rfl

theorem builtDict_keys2 {s : VocabState} (c : Counter) :
    (builtDict s c).map Prod.fst =
      (initDict s.padding s.paddingToken s.oovToken).map Prod.fst ++ builtSel s c :=
  builtDict_keys c

theorem builtSel_not_special {s : VocabState} {c : Counter} (h : CleanState s c)
    {t : String} (ht : t ∈ builtSel s c) : t ≠ s.paddingToken ∧ t ≠ s.oovToken :=
  builtDict_selected_not_special h ht

theorem builtSel_mem_counter {s : VocabState} {c : Counter} {t : String}
    (ht : t ∈ builtSel s c) : t ∈ c.map Prod.fst := by
  have hmem : t ∈ (sortByCountDesc c).map Prod.fst :=
    (select_sublist _ _ _ _).mem ht
  exact ((sortByCountDesc_perm c).map Prod.fst).mem_iff.mp hmem

theorem initDict_keys_padding {padTok oovTok : String} (h : padTok ≠ oovTok) :
    (initDict true padTok oovTok).map Prod.fst = [padTok, oovTok] := by
  rw [initDict_padding h]
  rfl

theorem initDict_keys_no_padding (padTok oovTok : String) :
    (initDict false padTok oovTok).map Prod.fst = [oovTok] := rfl

theorem nonSpecialLines_self (padTok oovTok : String) {ls : List String}
    (hid : ∀ t ∈ ls, stripNL t = t)
    (hsp : ∀ t ∈ ls, t ≠ padTok ∧ t ≠ oovTok) :
    nonSpecialLines padTok oovTok ls = ls := by
  unfold nonSpecialLines
  have h1 : ls.map stripNL = ls := by
    rw [List.map_congr_left hid, List.map_id']
  rw [h1]
  rw [List.filter_eq_self.mpr]
  intro a ha
  simpa using not_or.mpr ⟨(hsp a ha).1, (hsp a ha).2⟩

theorem loadsLoop_skip_special (padTok oovTok line : String) (rest : List String) (d : Dict)
    (hsp : stripNL line = padTok ∨ stripNL line = oovTok) :
    loadsLoop padTok oovTok (line :: rest) d = loadsLoop padTok oovTok rest d := by
  rw [loadsLoop]
  exact if_pos hsp

theorem loadsLoop_skip_specials {padTok oovTok : String} (h : padTok ≠ oovTok)
    (hsp : stripNL padTok = padTok) (hso : stripNL oovTok = oovTok) :
    ∀ (padding : Bool) (rest : List String) (d : Dict),
      loadsLoop padTok oovTok ((initDict padding padTok oovTok).map Prod.fst ++ rest) d =
        loadsLoop padTok oovTok rest d
  | true, rest, d => by
    rw [initDict_keys_padding h, List.cons_append, List.cons_append, List.nil_append,
      loadsLoop_skip_special _ _ _ _ _ (Or.inl hsp),
      loadsLoop_skip_special _ _ _ _ _ (Or.inr hso)]
  | false, rest, d => by
    rw [initDict_keys_no_padding, List.cons_append, List.nil_append,
      loadsLoop_skip_special _ _ _ _ _ (Or.inr hso)]

theorem c5_load_of_keys {s : VocabState} {c : Counter} (s₂ : VocabState) (h : CleanState s c)
    (hp2 : s₂.padding = s.padding) (hpt2 : s₂.paddingToken = s.paddingToken)
    (hot2 : s₂.oovToken = s.oovToken)
    (hnlsel : ∀ t ∈ builtSel s c, ∀ ch ∈ t.data, ch ≠ '\n')
    (hnlp : ∀ ch ∈ s.paddingToken.data, ch ≠ '\n')
    (hnlo : ∀ ch ∈ s.oovToken.data, ch ≠ '\n') :
    (loadsS s₂ ((builtDict s c).map Prod.fst)).tokenToIndex = builtDict s c := by
  have hpo := h.2.2.2
  show loadsLoop s₂.paddingToken s₂.oovToken ((builtDict s c).map Prod.fst)
      (initDict s₂.padding s₂.paddingToken s₂.oovToken) = builtDict s c
  rw [hp2, hpt2, hot2, builtDict_keys2,
    loadsLoop_skip_specials hpo (stripNL_of_no_newline hnlp)
      (stripNL_of_no_newline hnlo) s.padding]
  have hns : nonSpecialLines s.paddingToken s.oovToken (builtSel s c) = builtSel s c :=
    nonSpecialLines_self _ _ (fun t ht => stripNL_of_no_newline (hnlsel t ht))
      (fun t ht => builtSel_not_special h ht)
  have hnodup : (builtSel s c).Nodup := by
    have hh := builtDict_keys_nodup h
    rw [builtDict_keys2] at hh
    exact (List.nodup_append.mp hh).2.1
  rw [loadsLoop_structure s.paddingToken s.oovToken (builtSel s c) _
    (canonical_initDict hpo s.padding)
    (by rw [hns]; exact hnodup)
    (by
      rw [hns]
      intro t ht hbad
      rcases mem_initDict_keys hpo hbad with rfl | rfl
      · exact (builtSel_not_special h ht).1 rfl
      · exact (builtSel_not_special h ht).2 rfl)]
  rw [hns]
  exact (builtDict_def s c).symm

theorem dropNL_append_newline {l : List Char} (h : ∀ ch ∈ l, ch ≠ '\n') :
    dropNL (l ++ ['\n']) = l := by
  unfold dropNL
  cases l with
  | nil => rfl
  | cons c cs =>
    have hc : c ≠ '\n' := h c (List.mem_cons_self _ _)
    rw [List.cons_append, List.dropWhile_cons, if_neg (by simpa using hc)]
    rw [show c :: (cs ++ ['\n']) = (c :: cs) ++ ['\n'] from rfl]
    rw [List.reverse_append]
    rw [show (['\n'] : List Char).reverse = ['\n'] from rfl, List.singleton_append]
    rw [List.dropWhile_cons, if_pos (by simp)]
    rw [dropWhile_no_newline _ (fun ch hch => h ch (List.mem_reverse.mp hch))]
    rw [List.reverse_reverse]

theorem stripNL_append_newline {k : String} (h : ∀ ch ∈ k.data, ch ≠ '\n') :
    stripNL (k ++ "\n") = k := by
  unfold stripNL
  rw [String.data_append]
  rw [show ("\n" : String).data = ['\n'] from rfl]
  rw [dropNL_append_newline h]

theorem keepEnds_map_stripNL :
    ∀ ks : List String, (∀ k ∈ ks, ∀ ch ∈ k.data, ch ≠ '\n') → (∀ k ∈ ks, k ≠ "") →
      (keepEnds ks).map stripNL = ks := by
  intro ks
  induction ks with
  | nil => intro _ _; rfl
  | cons s rest ih =>
    intro hnl hne
    cases rest with
    | nil =>
      rw [show keepEnds [s] = if s = "" then [] else [s] from rfl]
      rw [if_neg (hne s (List.mem_cons_self _ _))]
      rw [List.map_cons, List.map_nil, stripNL_of_no_newline (hnl s (List.mem_cons_self _ _))]
    | cons s₂ rest₂ =>
      rw [keepEnds, List.map_cons,
        stripNL_append_newline (hnl s (List.mem_cons_self _ _)),
        ih (fun k hk => hnl k (List.mem_cons_of_mem _ hk))
          (fun k hk => hne k (List.mem_cons_of_mem _ hk))]

theorem loadsLoop_congr (padTok oovTok : String) :
    ∀ (lines₁ lines₂ : List String) (d : Dict),
      lines₁.map stripNL = lines₂.map stripNL →
      loadsLoop padTok oovTok lines₁ d = loadsLoop padTok oovTok lines₂ d := by
  intro lines₁
  induction lines₁ with
  | nil =>
    intro lines₂ d h
    cases lines₂ with
    | nil => rfl
    | cons l₂ rest₂ => simp at h
  | cons l₁ rest₁ ih =>
    intro lines₂ d h
    cases lines₂ with
    | nil => simp at h
    | cons l₂ rest₂ =>
      simp only [List.map_cons, List.cons.injEq] at h
      obtain ⟨hh, ht⟩ := h
      show (if stripNL l₁ = padTok ∨ stripNL l₁ = oovTok then
              loadsLoop padTok oovTok rest₁ d
            else loadsLoop padTok oovTok rest₁ (dictSet d (stripNL l₁) d.length)) =
           (if stripNL l₂ = padTok ∨ stripNL l₂ = oovTok then
              loadsLoop padTok oovTok rest₂ d
            else loadsLoop padTok oovTok rest₂ (dictSet d (stripNL l₂) d.length))
      rw [hh]
      by_cases hsp : stripNL l₂ = padTok ∨ stripNL l₂ = oovTok
      · rw [if_pos hsp, if_pos hsp]
        exact ih rest₂ d ht
      · rw [if_neg hsp, if_neg hsp]
        exact ih rest₂ _ ht

theorem c5_linesOfDump {s : VocabState} {c : Counter} (s₁ : VocabState) (h : CleanState s c)
    (hseq : s₁.tokenToIndex = builtDict s c)
    (hnl : ∀ k ∈ (builtDict s c).map Prod.fst, ∀ ch ∈ k.data, ch ≠ '\n') :
    linesOfText (dumps s₁) = keepEnds ((builtDict s c).map Prod.fst) := by
  have hbne : builtDict s c ≠ [] := by
    intro hnil
    have := builtDict_length_pos h
    rw [hnil] at this
    simp at this
  have hne : s₁.tokenToIndex ≠ [] := by rw [hseq]; exact hbne
  have hdata := dumps_data hne
  rw [hseq] at hdata
  have hkeysne : (builtDict s c).map Prod.fst ≠ [] := by
    intro hx
    exact hbne (List.map_eq_nil_iff.mp hx)
  have hnl2 : ∀ u ∈ ((builtDict s c).map Prod.fst).map String.data, ∀ ch ∈ u, ch ≠ '\n' := by
    intro u hu
    obtain ⟨k, hk, rfl⟩ := List.mem_map.mp hu
    exact hnl k hk
  unfold linesOfText
  rw [hdata, splitNL_joinNLData _ (by simpa using hkeysne) hnl2, List.map_map]
  have hmk : ∀ k ∈ (builtDict s c).map Prod.fst, (String.mk ∘ String.data) k = k :=
    fun k _ => rfl
  rw [List.map_congr_left hmk, List.map_id']

/-- C5 counterexample: a built vocabulary whose token `"a\nb"` contains a
newline dumps to three lines, so loading the dumped text yields the two
tokens `"a"` and `"b"` and loses `"a\nb"`: the round trip fails. -/
theorem c5_counterexample :
    buildS { freshState with padding := false, counter := some [("a\nb", 1)] } =
      ({ freshState with
          padding := false,
          counter := some [("a\nb", 1)],
          tokenToIndex := [("@@UNKNOWN@@", 0), ("a\nb", 1)] }, none) ∧
    dictGet [("@@UNKNOWN@@", 0), ("a\nb", 1)] "a\nb" = some 1 ∧
    dictGet
      (loadsS
        { freshState with
          padding := false,
          counter := some [("a\nb", 1)],
          tokenToIndex := [("@@UNKNOWN@@", 0), ("a\nb", 1)] }
        (linesOfText (dumps
          { freshState with
            padding := false,
            counter := some [("a\nb", 1)],
            tokenToIndex := [("@@UNKNOWN@@", 0), ("a\nb", 1)] }))).tokenToIndex
      "a\nb" = none := by
  refine ⟨rfl, rfl, by decide⟩

/-- C5 amended: dumping a cleanly built vocabulary whose tokens and special
token strings contain no newline character and are not the empty string,
then loading the dumped text into a vocabulary with the same configuration,
reproduces every non-special token at the id it had before.  (A token with
a newline is written as several lines; an empty token in the last mapping
slot makes the text end in a newline, and stream iteration then yields no
final empty line, losing the token — hence both exclusions.) -/
theorem c5_dump_load_roundtrip (s s' s₂ : VocabState) (c : Counter) (h : CleanState s c)
    (hb : buildS s = (s', none))
    (hp2 : s₂.padding = s.padding) (hpt2 : s₂.paddingToken = s.paddingToken)
    (hot2 : s₂.oovToken = s.oovToken)
    (hnlc : ∀ p ∈ c, ∀ ch ∈ p.1.data, ch ≠ '\n')
    (hnlp : ∀ ch ∈ s.paddingToken.data, ch ≠ '\n')
    (hnlo : ∀ ch ∈ s.oovToken.data, ch ≠ '\n')
    (hnec : ∀ p ∈ c, p.1 ≠ "")
    (hnep : s.paddingToken ≠ "") (hneo : s.oovToken ≠ "") :
    ∀ t i, t ≠ s.paddingToken → t ≠ s.oovToken →
      dictGet s'.tokenToIndex t = some i →
      dictGet (loadsS s₂ (linesOfText (dumps s'))).tokenToIndex t = some i := by
  have hs' : ({ initState s with tokenToIndex := builtDict s c } : VocabState) = s' := by
    have := (buildS_clean h).symm.trans hb
    exact congrArg Prod.fst this
  subst hs'
  have hpo := h.2.2.2
  have hnlkeys : ∀ k ∈ (builtDict s c).map Prod.fst, ∀ ch ∈ k.data, ch ≠ '\n' := by
    intro k hk
    rw [builtDict_keys2] at hk
    rcases List.mem_append.mp hk with hk0 | hk1
    · rcases mem_initDict_keys hpo hk0 with rfl | rfl
      · exact hnlp
      · exact hnlo
    · obtain ⟨p, hp, hpk⟩ := List.mem_map.mp (builtSel_mem_counter hk1)
      intro ch hch
      exact hnlc p hp ch (by rw [hpk]; exact hch)
  have hnekeys : ∀ k ∈ (builtDict s c).map Prod.fst, k ≠ "" := by
    intro k hk
    rw [builtDict_keys2] at hk
    rcases List.mem_append.mp hk with hk0 | hk1
    · rcases mem_initDict_keys hpo hk0 with rfl | rfl
      · exact hnep
      · exact hneo
    · obtain ⟨p, hp, hpk⟩ := List.mem_map.mp (builtSel_mem_counter hk1)
      exact hpk ▸ hnec p hp
  have hlines : linesOfText (dumps { initState s with tokenToIndex := builtDict s c }) =
      keepEnds ((builtDict s c).map Prod.fst) :=
    c5_linesOfDump _ h rfl hnlkeys
  have hstripkeys : ((builtDict s c).map Prod.fst).map stripNL = (builtDict s c).map Prod.fst := by
    rw [List.map_congr_left (fun k hk => stripNL_of_no_newline (hnlkeys k hk)), List.map_id']
  have hcongr : (loadsS s₂ (keepEnds ((builtDict s c).map Prod.fst))).tokenToIndex =
      (loadsS s₂ ((builtDict s c).map Prod.fst)).tokenToIndex := by
    show loadsLoop s₂.paddingToken s₂.oovToken (keepEnds ((builtDict s c).map Prod.fst))
        (initDict s₂.padding s₂.paddingToken s₂.oovToken) =
      loadsLoop s₂.paddingToken s₂.oovToken ((builtDict s c).map Prod.fst)
        (initDict s₂.padding s₂.paddingToken s₂.oovToken)
    refine loadsLoop_congr _ _ _ _ _ ?_
    rw [keepEnds_map_stripNL _ hnlkeys hnekeys, hstripkeys]
  intro t i _ _ hget
  rw [hlines, hcongr, c5_load_of_keys s₂ h hp2 hpt2 hot2
    (fun u hu => hnlkeys u (by rw [builtDict_keys2]; exact List.mem_append_right _ hu))
    hnlp hnlo]
  exact hget

/-- C5 witness: the spec example round-trips through the text format; the
token `a` is still at id 2 after dump and load. -/
theorem c5_dump_load_roundtrip_witness :
    dictGet (loadsS builtABC (linesOfText (dumps builtABC))).tokenToIndex "a" = some 2 :=
  c5_dump_load_roundtrip
    { freshState with counter := some [("a", 2), ("b", 2), ("c", 1)] } builtABC builtABC
    [("a", 2), ("b", 2), ("c", 1)]
    ⟨rfl, by decide, by decide, by decide⟩ (by rfl) rfl rfl rfl
    (by decide) (by decide) (by decide) (by decide) (by decide) (by decide)
    "a" 2 (by decide) (by decide) rfl

end Yavoc
